import Mathlib

/-!
# tools/tools.go: the reflective namespace binder

A shallow embedding of `tools.Env` (src/tools/tools.go) and the proofs of its
specification.

* Go strings are lists of characters (`Str`).  Symbol names are UTF-8 text and
  every marker the code looks for is ASCII, so prefix tests, index searches
  and slicing act on characters exactly as they act on bytes, and the
  lexicographic order by code point is Go's bytewise `<`.
* `map[string]bool` used as a set is a duplicate-free list of keys; a
  `map[string]reflect.Value` (`reflectlang.Environment`) is an association
  list in which the most recent write for a key comes first.
* The symbol-table service (`goof.Troop`), the `reflect` package and the
  `reflectlang` helpers are not part of tools.go.  They are the fields of
  `Host`, and every theorem holds for every `Host`.
-/

namespace Tools

/-! ## Strings -/

/-- A Go `string`. -/
abbrev Str := List Char

/-- Go `strings.HasPrefix(s, pre)`. -/
def HasPrefix (s pre : Str) : Bool := pre.isPrefixOf s

/-- Go `strings.TrimPrefix(s, pre)`: `s` without the leading `pre`, or `s`
itself when it does not start with `pre`. -/
def TrimPrefix (s pre : Str) : Str :=
  if HasPrefix s pre then s.drop pre.length else s

/-- Go `strings.Index(s, c)` for a one-character pattern: the position of the
first occurrence, `none` where Go returns `-1`. -/
def Index : Str → Char → Option Nat
  | [], _ => none
  | x :: xs, c => if x = c then some 0 else (Index xs c).map (· + 1)

/-- Go `strings.LastIndex(s, c)` for a one-character pattern: the position of
the last occurrence, `none` where Go returns `-1`. -/
def LastIndex : Str → Char → Option Nat
  | [], _ => none
  | x :: xs, c =>
    match LastIndex xs c with
    | some i => some (i + 1)
    | none => if x = c then some 0 else none

/-- Go `sort.Strings`: the ascending rearrangement of the slice.  The order on
strings is total, so the result does not depend on the sorting algorithm. -/
def sortStrings (l : List Str) : List Str := l.insertionSort (· ≤ ·)

/-! ## Environments and the host -/

/-- Modelled from the spec: `reflectlang.Environment`, a mapping from local
name to binding (Go `map[string]reflect.Value`).  Entries are kept newest
first; an older entry for the same key is shadowed, so each list stands for
one map and last write wins. -/
structure Environment (V : Type) where
  entries : List (Str × V)

namespace Environment

/-- The empty map `reflectlang.Environment{}`. -/
def empty {V : Type} : Environment V := ⟨[]⟩

/-- Map read `env[key]`; `none` when the key is not bound. -/
def lookup {V : Type} (env : Environment V) (key : Str) : Option V :=
  (env.entries.find? (fun kv => decide (kv.1 = key))).map Prod.snd

/-- Map write `env[key] = v`. -/
def store {V : Type} (env : Environment V) (key : Str) (v : V) : Environment V :=
  ⟨(key, v) :: env.entries⟩

/-- The keys that `for key := range env` visits, each once (the order of a Go
map iteration is unspecified; every use below sorts afterwards). -/
def keys {V : Type} (env : Environment V) : List Str :=
  (env.entries.map Prod.fst).dedup

end Environment

/-- The Go functions that `Env` wraps with `reflect.ValueOf`, named by the key
they are bound under. -/
inductive GoFunc where
  | prettySprint | tryE | tryE1 | tryE2 | tryE3 | tryE4
  | packages | globals | functions | types | filter | dir | println | printf
  deriving DecidableEq, Repr

/-- Everything tools.go uses but does not define: the symbol-table service
`troop` (package goof), `reflect`, `fmt.Errorf`, package `reflectlang`, package
`sudo` and `importPathToNameBasic` (another file of package tools).  A service
operation takes the state of the running process and returns its result with
the state that follows, so invoked code may have effects. -/
structure Host where
  /-- State of the running process, as seen and changed by the service. -/
  State : Type
  /-- Go `error` values. -/
  Err : Type
  /-- Dynamic values, `reflect.Value`. -/
  Value : Type
  /-- Boxed values, `interface{}`. -/
  Iface : Type
  /-- Type descriptors, `reflect.Type`. -/
  RType : Type
  /-- `fmt.Errorf(msg)`. -/
  Errorf : String → Err
  /-- `troop.Globals()`. -/
  Globals : State → Except Err (List Str) × State
  /-- `troop.Functions()`. -/
  Functions : State → Except Err (List Str) × State
  /-- `troop.Types()`. -/
  Types : State → Except Err (List RType) × State
  /-- `troop.Global(name)`. -/
  Global : Str → State → Except Err Value × State
  /-- `troop.Call(name, args...)`. -/
  Call : Str → List Iface → State → Except Err (List Iface) × State
  /-- `troop.Type(name)`. -/
  TroopType : Str → State → Except Err RType × State
  /-- `v.Kind() == reflect.String`. -/
  KindString : Value → Bool
  /-- `v.String()`. -/
  ValueString : Value → Str
  /-- `v.CanInt()`. -/
  CanInt : Value → Bool
  /-- `v.Int()`. -/
  ValueInt : Value → Int
  /-- `v.Interface()`. -/
  Interface : Value → Iface
  /-- `reflect.ValueOf(x)`. -/
  ValueOf : Iface → Value
  /-- `reflect.ValueOf(f)` for the Go functions bound by `Env`. -/
  ValueOfFunc : GoFunc → Value
  /-- `reflect.NewAt(typ, unsafe.Pointer(uintptr(n)))`. -/
  NewAt : RType → Int → Value
  /-- `reflect.TypeOf(x)`; `none` is the nil `reflect.Type` of a nil interface. -/
  TypeOf : Iface → Option RType
  /-- The runtime error of a method call on a nil `reflect.Type`. -/
  nilDereference : Err
  /-- `typ.PkgPath()`. -/
  PkgPath : RType → Str
  /-- `typ.Name()`. -/
  Name : RType → Str
  /-- `typ.Method(i).Name` for `i` from 0 below `typ.NumMethod()`. -/
  MethodNames : RType → List Str
  /-- `typ.Kind() == reflect.Struct`. -/
  KindStruct : RType → Bool
  /-- `typ.Field(i).Name` for `i` from 0 below `typ.NumField()`. -/
  FieldNames : RType → List Str
  /-- `typ.Kind() == reflect.Pointer`. -/
  KindPointer : RType → Bool
  /-- `typ.Elem()`. -/
  Elem : RType → RType
  /-- `reflectlang.NewStandardEnvironment()`. -/
  NewStandardEnvironment : Environment Value
  /-- Modelled from the spec: `reflectlang.LowerStruct(env, sub)`, the binding
  that is the nested Environment `sub`.  The wrapper holds the Go map itself,
  so its argument here is the content of that map at the time of observation. -/
  LowerStruct : Environment Value → Value
  /-- Modelled from the spec: `reflectlang.LowerFunc(env, fn)`, the binding
  that is the callable `fn`.  A callable receives its arguments and may use
  the root Environment and the service. -/
  LowerFunc : (List Value → Environment Value → State →
    Except Err (List Value) × Environment Value × State) → Value
  /-- `reflectlang.IsLowerStruct(x)`: the nested Environment, or `none` for
  the nil result. -/
  IsLowerStruct : Iface → Option (Environment Value)
  /-- `reflectlang.IsLowerFunc(x)`. -/
  IsLowerFunc : Iface → Bool
  /-- `reflectlang.IsIdentifier(s)`. -/
  IsIdentifier : Str → Bool
  /-- `sudo.Sudo(v)`. -/
  Sudo : Value → Value
  /-- `importPathToNameBasic(pkgName)` of package tools. -/
  importPathToNameBasic : Str → Str

/-- The Go type `func(args []reflect.Value) ([]reflect.Value, error)` of the
functions given to `reflectlang.LowerFunc`, with what they close over made
explicit: the root Environment `env` and the state of the process. -/
abbrev Lowered (h : Host) : Type :=
  List h.Value → Environment h.Value → h.State →
    Except h.Err (List h.Value) × Environment h.Value × h.State

/-- The host `h` with another symbol-table service in place of `troop`:
everything of `reflect`, `fmt` and `reflectlang` is kept. -/
abbrev withService (h : Host)
    (globals functions : h.State → Except h.Err (List Str) × h.State)
    (types : h.State → Except h.Err (List h.RType) × h.State)
    (global : Str → h.State → Except h.Err h.Value × h.State)
    (call : Str → List h.Iface → h.State → Except h.Err (List h.Iface) × h.State)
    (troopType : Str → h.State → Except h.Err h.RType × h.State) : Host :=
  { h with
    Globals := globals
    Functions := functions
    Types := types
    Global := global
    Call := call
    TroopType := troopType }

/-! ## Symbol name normalizer and namespace extractor (tools.go 51-97) -/

/-- One iteration of the loop in `process` (tools.go 54-73), as far as it
computes the key to insert: `none` when the iteration ends in the first
`continue` (the name is discarded), else the namespace stored in `pkgs`. -/
def normalize (name : Str) : Option Str :=
  if HasPrefix name "go:".toList || HasPrefix name "struct \x7b".toList then none
  else
    let name := TrimPrefix name "type:.eq.".toList
    let name := TrimPrefix name "type:.hash.".toList
    let lastSlash := LastIndex name '/'
    let pkgPrefix : Str := match lastSlash with
      | some i => name.take i
      | none => []
    let name : Str := match lastSlash with
      | some i => name.drop i
      | none => name
    match Index name '.' with
    | none => some pkgPrefix
    | some pos => some (pkgPrefix ++ name.take pos)

/-- The map write `pkgs[key] = true` on the set `pkgs`. -/
def insertKey (pkgs : List Str) (key : Str) : List Str :=
  if key ∈ pkgs then pkgs else key :: pkgs

/-- The body of the loop in `process`: `pkgs[ns] = true` for the namespace of
a name that is not discarded. -/
def processName (pkgs : List Str) (name : Str) : List Str :=
  match normalize name with
  | none => pkgs
  | some ns => insertKey pkgs ns

/-- The closure `process` of `packages` (tools.go 53-75), acting on the set
`pkgs`. -/
def process (pkgs : List Str) (names : List Str) : List Str :=
  names.foldl processName pkgs

/-- The loop over the declared types (tools.go 87-89), given the `PkgPath()`
of each type. -/
def processTypes (pkgs : List Str) (pkgPaths : List Str) : List Str :=
  pkgPaths.foldl insertKey pkgs

/-- The result of `packages` once the three enumerations have succeeded
(tools.go 52, 79, 83, 87-96). -/
def packagesOf (globals functions typePkgPaths : List Str) : List Str :=
  sortStrings (processTypes (process (process [] globals) functions) typePkgPaths)

/-! ## Member filter (tools.go 99-109) -/

/-- The loop of `filterNames`, with `pkg` already extended by the dot. -/
def filterLoop (pkg : Str) : List Str → List Str → List Str
  | [], filtered => filtered
  | name :: names, filtered =>
    if HasPrefix name pkg then filterLoop pkg names (filtered ++ [TrimPrefix name pkg])
    else filterLoop pkg names filtered

/-- The closure `filterNames` (tools.go 99-109). -/
def filterNames (pkg : Str) (names : List Str) : List Str :=
  let pkg := pkg ++ ".".toList
  sortStrings (filterLoop pkg names [])

/-! ## The listing functions (tools.go 51-97, 111-115, 136-153) -/

/-- The function bound to `packages` (tools.go 51-97).  `assert(err)` panics
with `err`; a panic is the `error` outcome. -/
def packages (h : Host) (s : h.State) : Except h.Err (List Str) × h.State :=
  let pkgs : List Str := []
  match h.Globals s with
  | (.error err, s1) => (.error err, s1)
  | (.ok names, s1) =>
    let pkgs := process pkgs names
    match h.Functions s1 with
    | (.error err, s2) => (.error err, s2)
    | (.ok names, s2) =>
      let pkgs := process pkgs names
      match h.Types s2 with
      | (.error err, s3) => (.error err, s3)
      | (.ok types, s3) =>
        let pkgs := processTypes pkgs (types.map h.PkgPath)
        (.ok (sortStrings pkgs), s3)

/-- The function bound to `globals` (tools.go 111-115). -/
def globals (h : Host) (pkg : Str) (s : h.State) : Except h.Err (List Str) × h.State :=
  match h.Globals s with
  | (.error err, s1) => (.error err, s1)
  | (.ok rv, s1) => (.ok (filterNames pkg rv), s1)

/-- The function bound to `functions` (tools.go 136-140). -/
def functions (h : Host) (pkg : Str) (s : h.State) : Except h.Err (List Str) × h.State :=
  match h.Functions s with
  | (.error err, s1) => (.error err, s1)
  | (.ok rv, s1) => (.ok (filterNames pkg rv), s1)

/-- The function bound to `types` (tools.go 142-153). -/
def types (h : Host) (pkg : Str) (s : h.State) : Except h.Err (List Str) × h.State :=
  match h.Types s with
  | (.error err, s1) => (.error err, s1)
  | (.ok rv, s1) =>
    (.ok (sortStrings ((rv.filter (fun typ => decide (h.PkgPath typ = pkg))).map h.Name)), s1)

/-! ## Single lookups, invocation and construction (tools.go 117-134, 165-214) -/

/-- The function bound to `global` (tools.go 117-134). -/
def global (h : Host) : Lowered h := fun args env s =>
  if args.length ≠ 2 then
    (.error (h.Errorf "global expected 2 arguments"), env, s)
  else if args.any (fun arg => !h.KindString arg) then
    (.error (h.Errorf "global expected the arguments to be strings"), env, s)
  else
    match args with
    | [a0, a1] =>
      let pkg := h.ValueString a0
      let name := h.ValueString a1
      match h.Global (pkg ++ ".".toList ++ name) s with
      | (.error err, s1) => (.error err, env, s1)
      | (.ok rv, s1) => (.ok [rv], env, s1)
    | _ => (.error (h.Errorf "global expected 2 arguments"), env, s)

/-- The function bound to `call` (tools.go 165-193). -/
def call (h : Host) : Lowered h := fun args env s =>
  match args with
  | a0 :: a1 :: rest =>
    if !h.KindString a0 then
      (.error (h.Errorf "call expected the first argument to be a string"), env, s)
    else if !h.KindString a1 then
      (.error (h.Errorf "call expected the second argument to be a string"), env, s)
    else
      let iargs := rest.map h.Interface
      match h.Call (h.ValueString a0 ++ ".".toList ++ h.ValueString a1) iargs s with
      | (.error err, s1) => (.error err, env, s1)
      | (.ok results, s1) => (.ok (results.map h.ValueOf), env, s1)
  | _ => (.error (h.Errorf "call expected at least 2 arguments"), env, s)

/-- The function bound to `newAt` (tools.go 195-214). -/
def newAt (h : Host) : Lowered h := fun args env s =>
  match args with
  | [a0, a1, a2] =>
    if !h.KindString a0 then
      (.error (h.Errorf "newAt expected the first argument to be a string"), env, s)
    else if !h.KindString a1 then
      (.error (h.Errorf "newAt expected the second argument to be a string"), env, s)
    else if !h.CanInt a2 then
      (.error (h.Errorf "newAt expected the third argument to be an integer"), env, s)
    else
      match h.TroopType (h.ValueString a0 ++ ".".toList ++ h.ValueString a1) s with
      | (.error err, s1) => (.error err, env, s1)
      | (.ok typ, s1) => (.ok [h.NewAt typ (h.ValueInt a2)], env, s1)
  | _ => (.error (h.Errorf "newAt expected 3 arguments"), env, s)

/-- The function bound to `sudo` (tools.go 270-276). -/
def sudoArgs (h : Host) : Lowered h := fun args env s =>
  (.ok (args.map h.Sudo), env, s)

/-! ## Discovery inspector (tools.go 216-258) -/

/-- The closure `handleEnv` of `dir` (tools.go 217-226). -/
def handleEnv {V : Type} (env : Environment V) : List Str :=
  sortStrings (env.keys.filter (fun key => !HasPrefix key "$".toList))

/-- The closure `handle` of `dir` (tools.go 239-248), acting on `fields`. -/
def handle (h : Host) (fields : List Str) (typ : h.RType) : List Str :=
  let fields := fields ++ h.MethodNames typ
  if h.KindStruct typ then fields ++ h.FieldNames typ else fields

/-- The function bound to `dir` (tools.go 216-258), reading the root
Environment `env`.  The `error` outcome is the panic of `typ.NumMethod()` on
the nil type of a nil argument. -/
def dir (h : Host) (env : Environment h.Value) (args : List h.Iface) :
    Except h.Err (List Str) :=
  match args with
  | [] => .ok (handleEnv env)
  | arg :: _ =>
    match h.IsLowerStruct arg with
    | some sub => .ok (handleEnv sub)
    | none =>
      if h.IsLowerFunc arg then .ok []
      else
        match h.TypeOf arg with
        | none => .error h.nilDereference
        | some typ =>
          let fields := handle h [] typ
          let fields := if h.KindPointer typ then handle h fields (h.Elem typ) else fields
          .ok (sortStrings fields)

/-! ## Namespace importer (tools.go 278-359) -/

/-- The callable that the function loader of `$import` builds for `name`
(tools.go 339-357). -/
def importedFunc (h : Host) (name : Str) : Lowered h := fun args env s =>
  let iargs := args.map h.Interface
  match h.Call name iargs s with
  | (.error err, s1) => (.error err, env, s1)
  | (.ok results, s1) => (.ok (results.map h.ValueOf), env, s1)

/-- The loader that `$import` passes for functions (tools.go 338-358). -/
def functionLoader (h : Host) (name : Str) (s : h.State) : Except h.Err h.Value × h.State :=
  (.ok (h.LowerFunc (importedFunc h name)), s)

/-- The closure `scanList` of `$import` (tools.go 308-324), acting on the map
`envToFill`.  On a loader error it returns at once and the writes made so far
stay. -/
def scanList (h : Host) (pkgName : Str)
    (loader : Str → h.State → Except h.Err h.Value × h.State) :
    List Str → Environment h.Value → h.State →
      Except h.Err Unit × Environment h.Value × h.State
  | [], envToFill, s => (.ok (), envToFill, s)
  | name :: names, envToFill, s =>
    if !HasPrefix name (pkgName ++ ".".toList) then
      scanList h pkgName loader names envToFill s
    else
      let localName := TrimPrefix name (pkgName ++ ".".toList)
      if !h.IsIdentifier localName then
        scanList h pkgName loader names envToFill s
      else
        match loader name s with
        | (.error err, s1) => (.error err, envToFill, s1)
        | (.ok global, s1) =>
          scanList h pkgName loader names (envToFill.store localName global) s1

/-- The name under which `$import` binds a child Environment (tools.go
300-302). -/
def importTarget (h : Host) (target pkgName : Str) : Str :=
  if target = [] then h.importPathToNameBasic pkgName else target

/-- The root Environment as a function of the content of `envToFill`
(tools.go 296-306).  Go maps are references: for target "." the map
`envToFill` is the root map itself, and otherwise the root map has the child
map bound under the target name before the scans begin, so every write to
`envToFill` is visible through the root at once. -/
def rootView (h : Host) (env : Environment h.Value) (target pkgName : Str)
    (envToFill : Environment h.Value) : Environment h.Value :=
  if target = ".".toList then envToFill
  else env.store (importTarget h target pkgName) (h.LowerStruct envToFill)

/-- The function bound to `$import` (tools.go 278-359). -/
def importDirective (h : Host) : Lowered h := fun args env s =>
  match args with
  | [a0, a1] =>
    if !h.KindString a0 then
      (.error (h.Errorf "import expected a target name argument"), env, s)
    else if !h.KindString a1 then
      (.error (h.Errorf "import expected a package name"), env, s)
    else
      let target := h.ValueString a0
      let pkgName := h.ValueString a1
      if target = "_".toList then (.ok [], env, s)
      else
        let envToFill : Environment h.Value :=
          if target = ".".toList then env else Environment.empty
        let root := rootView h env target pkgName
        match h.Globals s with
        | (.error err, s1) => (.error err, root envToFill, s1)
        | (.ok globals, s1) =>
          match scanList h pkgName h.Global globals envToFill s1 with
          | (.error err, envToFill, s2) => (.error err, root envToFill, s2)
          | (.ok _, envToFill, s2) =>
            match h.Functions s2 with
            | (.error err, s3) => (.error err, root envToFill, s3)
            | (.ok functions, s3) =>
              match scanList h pkgName (functionLoader h) functions envToFill s3 with
              | (.error err, envToFill, s4) => (.error err, root envToFill, s4)
              | (.ok _, envToFill, s4) => (.ok [], root envToFill, s4)
  | _ => (.error (h.Errorf "import expected 2 arguments"), env, s)

/-! ## The root Environment (tools.go 25-362) -/

/-- The function `Env`: the standard environment with the entries of tools.go
bound in source order.  The writer `out` is used only inside `println` and
`printf`, which are uninterpreted values here. -/
def Env (h : Host) : Environment h.Value :=
  let env := h.NewStandardEnvironment
  let env := env.store "pretty".toList (h.LowerStruct
    (Environment.empty.store "Sprint".toList (h.ValueOfFunc .prettySprint)))
  let env := env.store "try".toList (h.LowerStruct
    (((((Environment.empty.store "E".toList (h.ValueOfFunc .tryE)).store
      "E1".toList (h.ValueOfFunc .tryE1)).store
      "E2".toList (h.ValueOfFunc .tryE2)).store
      "E3".toList (h.ValueOfFunc .tryE3)).store
      "E4".toList (h.ValueOfFunc .tryE4)))
  let env := env.store "packages".toList (h.ValueOfFunc .packages)
  let env := env.store "globals".toList (h.ValueOfFunc .globals)
  let env := env.store "global".toList (h.LowerFunc (global h))
  let env := env.store "functions".toList (h.ValueOfFunc .functions)
  let env := env.store "types".toList (h.ValueOfFunc .types)
  let env := env.store "filter".toList (h.ValueOfFunc .filter)
  let env := env.store "call".toList (h.LowerFunc (call h))
  let env := env.store "newAt".toList (h.LowerFunc (newAt h))
  let env := env.store "dir".toList (h.ValueOfFunc .dir)
  let env := env.store "println".toList (h.ValueOfFunc .println)
  let env := env.store "printf".toList (h.ValueOfFunc .printf)
  let env := env.store "sudo".toList (h.LowerFunc (sudoArgs h))
  let env := env.store "$import".toList (h.LowerFunc (importDirective h))
  env

/-! ## A small host -/

namespace Demo

/-- Dynamic values of the small host: strings, integers, nested Environments
and callables. -/
inductive Val where
  | str (s : Str)
  | int (n : Int)
  | struct (sub : Environment Val)
  | func (fn : GoFunc)
  | lowered

/-- The symbol table of the small host: two namespaces, one name that is not
an identifier and one compiler-internal name. -/
def globalNames : List Str :=
  ["fmt.Version".toList, "fmt.x-y".toList, "os.Args".toList, "go:itab".toList]

/-- The function names of the small host. -/
def functionNames : List Str := ["fmt.Println".toList, "os.Exit".toList]

/-- Identifiers of the small host: non-empty, letters only. -/
def isIdent (s : Str) : Bool := !s.isEmpty && s.all Char.isAlpha

/-- A host whose state counts the invocations made through the service. -/
def host : Host where
  State := Nat
  Err := String
  Value := Val
  Iface := Val
  RType := Str × Str
  Errorf := fun msg => msg
  Globals := fun s => (.ok globalNames, s)
  Functions := fun s => (.ok functionNames, s)
  Types := fun s => (.ok [("net/http".toList, "Client".toList)], s)
  Global := fun name s =>
    if name = "fmt.Version".toList then (.ok (.int 3), s) else (.ok (.str name), s)
  Call := fun name args s =>
    if name = "fmt.Println".toList then (.ok args, s + 1) else (.error "no such function", s)
  TroopType := fun name s => (.ok ([], name), s)
  KindString := fun v => match v with
    | .str _ => true
    | _ => false
  ValueString := fun v => match v with
    | .str x => x
    | _ => []
  CanInt := fun v => match v with
    | .int _ => true
    | _ => false
  ValueInt := fun v => match v with
    | .int n => n
    | _ => 0
  Interface := fun v => v
  ValueOf := fun x => x
  ValueOfFunc := fun f => .func f
  NewAt := fun _ n => .int n
  TypeOf := fun _ => none
  nilDereference := "nil pointer dereference"
  PkgPath := fun t => t.1
  Name := fun t => t.2
  MethodNames := fun _ => []
  KindStruct := fun _ => false
  FieldNames := fun _ => []
  KindPointer := fun _ => false
  Elem := fun t => t
  NewStandardEnvironment := Environment.empty
  LowerStruct := fun sub => .struct sub
  LowerFunc := fun _ => .lowered
  IsLowerStruct := fun x => match x with
    | .struct sub => some sub
    | _ => none
  IsLowerFunc := fun x => match x with
    | .lowered => true
    | _ => false
  IsIdentifier := isIdent
  Sudo := fun v => v
  importPathToNameBasic := fun p => match LastIndex p '/' with
    | some i => p.drop (i + 1)
    | none => p

/-- The same host with a symbol table that cannot be read. -/
def broken : Host := { host with Globals := fun s => (.error "no symbol table", s) }

/-- The small host with one more compiler-internal global and one more
compiler-internal function in its symbol table. -/
def padded : Host :=
  { host with
    Globals := fun s => (.ok ("struct \x7b x int \x7d.f".toList :: globalNames), s)
    Functions := fun s => (.ok (functionNames ++ ["go:buildid".toList]), s) }

/-- The small host with a service that cannot enumerate functions. -/
def brokenFunctions : Host :=
  { host with Functions := fun s => (.error "no function table", s) }

/-- The small host with a service that cannot enumerate declared types. -/
def brokenTypes : Host :=
  { host with Types := fun s => (.error "no type table", s) }

/-- The small host with a symbol table whose namespaces are import paths:
"net/http" with one global, one name that is not an identifier and one
function, and "net/url" with one function. -/
def pathHost : Host :=
  { host with
    Globals := fun s =>
      (.ok ["net/http.DefaultClient".toList, "net/http.x-y".toList], s)
    Functions := fun s => (.ok ["net/http.Get".toList, "net/url.Parse".toList], s) }

/-- A host whose symbol table holds compiler-internal names only. -/
def markedOnly : Host :=
  { host with
    Globals := fun s => (.ok ["go:itab".toList], s)
    Functions := fun s => (.ok ["struct \x7b x int \x7d.f".toList], s)
    Types := fun s => (.ok [], s) }

end Demo

/-! ## Lemmas on strings -/

theorem HasPrefix_iff (s pre : Str) : HasPrefix s pre = true ↔ ∃ t, s = pre ++ t := by
  unfold HasPrefix
  rw [List.isPrefixOf_iff_prefix]
  constructor
  · rintro ⟨t, rfl⟩; exact ⟨t, rfl⟩
  · rintro ⟨t, rfl⟩; exact ⟨t, rfl⟩

theorem HasPrefix_append (pre t : Str) : HasPrefix (pre ++ t) pre = true :=
  (HasPrefix_iff _ _).2 ⟨t, rfl⟩

theorem TrimPrefix_append (pre t : Str) : TrimPrefix (pre ++ t) pre = t := by
  simp [TrimPrefix, HasPrefix_append]

theorem TrimPrefix_length_le (s pre : Str) : (TrimPrefix s pre).length ≤ s.length := by
  unfold TrimPrefix
  split <;> simp

theorem Index_lt {s : Str} {c : Char} {p : Nat} (h : Index s c = some p) : p < s.length := by
  induction s generalizing p with
  | nil => simp [Index] at h
  | cons x xs ih =>
    unfold Index at h
    split at h
    · cases h; simp
    · cases hx : Index xs c with
      | none => simp [hx] at h
      | some q =>
        simp [hx] at h
        have := ih hx
        simp; omega

theorem LastIndex_lt {s : Str} {c : Char} {p : Nat} (h : LastIndex s c = some p) :
    p < s.length := by
  induction s generalizing p with
  | nil => simp [LastIndex] at h
  | cons x xs ih =>
    unfold LastIndex at h
    cases hx : LastIndex xs c with
    | some q =>
      simp [hx] at h
      have := ih hx
      simp; omega
    | none =>
      simp [hx] at h
      simp [← h.2]

/-- A derived namespace is empty or strictly shorter than the name. -/
theorem normalize_shorter {name ns : Str} (h : normalize name = some ns) :
    ns = [] ∨ ns.length < name.length := by
  unfold normalize at h
  split at h
  · cases h
  · have hlen : (TrimPrefix (TrimPrefix name "type:.eq.".toList) "type:.hash.".toList).length
        ≤ name.length :=
      le_trans (TrimPrefix_length_le _ _) (TrimPrefix_length_le _ _)
    simp only at h
    generalize TrimPrefix (TrimPrefix name "type:.eq.".toList) "type:.hash.".toList = y at h hlen
    cases hs : LastIndex y '/' with
    | none =>
      simp only [hs] at h
      cases hd : Index y '.' with
      | none => simp [hd] at h; exact Or.inl h
      | some p =>
        simp [hd] at h
        have := Index_lt hd
        right; rw [← h]; simp; omega
    | some i =>
      simp only [hs] at h
      have hi := LastIndex_lt hs
      cases hd : Index (y.drop i) '.' with
      | none =>
        simp [hd] at h
        right; rw [← h]; simp; omega
      | some p =>
        simp [hd] at h
        have := Index_lt hd
        simp at this
        right; rw [← h]; simp; omega

theorem normalize_nil : normalize [] = some [] := by decide

theorem normalize_self_iff (x : Str) : normalize x = some x ↔ x = [] := by
  constructor
  · intro h
    rcases normalize_shorter h with h' | h'
    · exact h'
    · exact absurd h' (lt_irrefl _)
  · rintro rfl; exact normalize_nil

/-! ## Lemmas on sorting and the namespace set -/

theorem sortStrings_sorted (l : List Str) : (sortStrings l).Sorted (· ≤ ·) :=
  List.sorted_insertionSort (· ≤ ·) l

theorem sortStrings_perm (l : List Str) : (sortStrings l).Perm l :=
  List.perm_insertionSort (· ≤ ·) l

theorem mem_sortStrings {l : List Str} {x : Str} : x ∈ sortStrings l ↔ x ∈ l :=
  (sortStrings_perm l).mem_iff

theorem sortStrings_strict {l : List Str} (hl : l.Nodup) : (sortStrings l).Sorted (· < ·) :=
  (sortStrings_sorted l).lt_of_le ((sortStrings_perm l).nodup_iff.2 hl)

theorem insertKey_nodup {pkgs : List Str} (key : Str) (hp : pkgs.Nodup) :
    (insertKey pkgs key).Nodup := by
  unfold insertKey
  split
  · exact hp
  · exact List.nodup_cons.2 ⟨by assumption, hp⟩

theorem mem_insertKey {pkgs : List Str} {key x : Str} :
    x ∈ insertKey pkgs key ↔ x = key ∨ x ∈ pkgs := by
  unfold insertKey
  split
  · constructor
    · exact Or.inr
    · rintro (rfl | h)
      · assumption
      · exact h
  · simp

theorem processName_nodup {pkgs : List Str} (name : Str) (hp : pkgs.Nodup) :
    (processName pkgs name).Nodup := by
  unfold processName
  split
  · exact hp
  · exact insertKey_nodup _ hp

theorem process_nodup (names : List Str) {pkgs : List Str} (hp : pkgs.Nodup) :
    (process pkgs names).Nodup := by
  induction names generalizing pkgs with
  | nil => exact hp
  | cons n ns ih => exact ih (processName_nodup n hp)

theorem processTypes_nodup (paths : List Str) {pkgs : List Str} (hp : pkgs.Nodup) :
    (processTypes pkgs paths).Nodup := by
  induction paths generalizing pkgs with
  | nil => exact hp
  | cons n ns ih => exact ih (insertKey_nodup n hp)

theorem packagesOf_strict (gs fs ps : List Str) : (packagesOf gs fs ps).Sorted (· < ·) :=
  sortStrings_strict
    (processTypes_nodup ps (process_nodup fs (process_nodup gs List.nodup_nil)))

/-- Once the three enumerations succeed, `packages` returns `packagesOf`. -/
theorem packages_eq_packagesOf (h : Host) {s s1 s2 s3 : h.State} {gs fs : List Str}
    {ts : List h.RType} (hG : h.Globals s = (.ok gs, s1))
    (hF : h.Functions s1 = (.ok fs, s2)) (hT : h.Types s2 = (.ok ts, s3)) :
    packages h s = (.ok (packagesOf gs fs (ts.map h.PkgPath)), s3) := by
  simp [packages, hG, hF, hT, packagesOf]

/-- The names the first `continue` of `process` skips. -/
theorem normalize_eq_none_iff (name : Str) :
    normalize name = none ↔
      (HasPrefix name "go:".toList || HasPrefix name "struct \x7b".toList) = true := by
  unfold normalize
  split
  · simp_all
  · rename_i hn
    simp only [hn]
    simp only [false_iff, Bool.false_eq_true]
    split <;> simp

theorem process_filter (names pkgs : List Str) :
    process pkgs (names.filter
      (fun n => !(HasPrefix n "go:".toList || HasPrefix n "struct \x7b".toList))) =
    process pkgs names := by
  induction names generalizing pkgs with
  | nil => rfl
  | cons n ns ih =>
    by_cases hn : (HasPrefix n "go:".toList || HasPrefix n "struct \x7b".toList) = true
    · have h0 : processName pkgs n = pkgs := by
        unfold processName
        rw [(normalize_eq_none_iff n).2 hn]
      simp only [List.filter_cons, hn, Bool.not_true, Bool.false_eq_true, if_false]
      show _ = process (processName pkgs n) ns
      rw [h0]; exact ih pkgs
    · simp only [List.filter_cons, hn, Bool.not_false, if_true, Bool.not_eq_true] 
      show process (processName pkgs n) _ = process (processName pkgs n) ns
      exact ih _

/-! ## Lemmas on the member filter -/

theorem filterLoop_eq (pkg : Str) (names filtered : List Str) :
    filterLoop pkg names filtered =
      filtered ++ (names.filter (fun n => HasPrefix n pkg)).map (fun n => TrimPrefix n pkg) := by
  induction names generalizing filtered with
  | nil => simp [filterLoop]
  | cons n ns ih =>
    unfold filterLoop
    by_cases hn : HasPrefix n pkg = true
    · simp [hn, ih]
    · simp [hn, ih]

/-- The output of `filterNames` before sorting, in the words of the
specification. -/
theorem filterLoop_spec (pkg : Str) (names : List Str) :
    filterLoop pkg names [] =
      (names.filter (fun n => decide (pkg <+: n))).map (fun n => n.drop pkg.length) := by
  rw [filterLoop_eq, List.nil_append]
  induction names with
  | nil => rfl
  | cons n ns ih =>
    by_cases hn : HasPrefix n pkg = true
    · have hp : pkg <+: n := by
        obtain ⟨t, rfl⟩ := (HasPrefix_iff _ _).1 hn
        exact List.prefix_append _ _
      simp only [List.filter_cons, hn, if_true, hp, decide_True, List.map_cons, ih]
      simp [TrimPrefix, hn]
    · have hp : ¬ pkg <+: n := by
        rintro ⟨t, rfl⟩
        exact hn (HasPrefix_append _ _)
      simp only [List.filter_cons, hn, hp, decide_False]
      simpa using ih

/-! ## Lemmas on environments -/

namespace Environment

theorem lookup_empty {V : Type} (key : Str) : (empty : Environment V).lookup key = none := rfl

theorem lookup_store {V : Type} (env : Environment V) (k key : Str) (v : V) :
    (env.store k v).lookup key = if k = key then some v else env.lookup key := by
  unfold lookup store
  by_cases hk : k = key <;> simp [List.find?_cons, hk]

theorem lookup_append {V : Type} (a b : List (Str × V)) (key : Str) :
    (Environment.mk (a ++ b)).lookup key =
      ((Environment.mk a).lookup key).orElse (fun _ => (Environment.mk b).lookup key) := by
  unfold lookup
  simp only [List.find?_append]
  cases List.find? (fun kv => decide (kv.1 = key)) a <;> simp

theorem lookup_isSome_iff {V : Type} (env : Environment V) (key : Str) :
    (env.lookup key).isSome = true ↔ key ∈ env.keys := by
  unfold lookup keys
  rw [List.mem_dedup]
  simp only [Option.isSome_map', List.find?_isSome, List.mem_map]
  constructor
  · rintro ⟨kv, hkv, hk⟩
    exact ⟨kv, hkv, by simpa using hk⟩
  · rintro ⟨kv, hkv, hk⟩
    exact ⟨kv, hkv, by simpa using hk⟩

theorem keys_nodup {V : Type} (env : Environment V) : env.keys.Nodup :=
  List.nodup_dedup _

end Environment

/-! ## Lemmas on the discovery inspector -/

theorem handleEnv_strict {V : Type} (env : Environment V) :
    (handleEnv env).Sorted (· < ·) :=
  sortStrings_strict ((Environment.keys_nodup env).filter _)

theorem mem_handleEnv {V : Type} (env : Environment V) (n : Str) :
    n ∈ handleEnv env ↔ (env.lookup n).isSome = true ∧ HasPrefix n "$".toList = false := by
  unfold handleEnv
  rw [mem_sortStrings, List.mem_filter, Environment.lookup_isSome_iff]
  simp

/-! ## Lemmas on the namespace importer -/

/-- The writes of a scan do not depend on what `envToFill` held before: they
are put in front of it. -/
theorem scanList_append (h : Host) (pkgName : Str)
    (loader : Str → h.State → Except h.Err h.Value × h.State) (names : List Str)
    (fill : Environment h.Value) (s : h.State) :
    scanList h pkgName loader names fill s =
      ((scanList h pkgName loader names Environment.empty s).1,
        Environment.mk
          ((scanList h pkgName loader names Environment.empty s).2.1.entries ++ fill.entries),
        (scanList h pkgName loader names Environment.empty s).2.2) := by
  induction names generalizing fill s with
  | nil => rfl
  | cons n ns ih =>
    unfold scanList
    by_cases hp : HasPrefix n (pkgName ++ ".".toList) = true
    · by_cases hi : h.IsIdentifier (TrimPrefix n (pkgName ++ ".".toList)) = true
      · simp only [hp, hi, Bool.not_true, Bool.false_eq_true, if_false]
        cases hl : loader n s with
        | mk res s1 =>
          cases res with
          | error err => rfl
          | ok v =>
            simp only
            rw [ih (fill.store _ v) s1, ih (Environment.empty.store _ v) s1]
            simp [Environment.store, Environment.empty]
      · simp only [hp, hi, Bool.not_true, Bool.not_false, Bool.false_eq_true, if_false, if_true]
        exact ih fill s
    · simp only [hp, Bool.not_false, if_true]
      exact ih fill s

/-- After a scan that succeeds, the bound names are those bound before and
the identifiers `L` with `pkgName.L` among the scanned names. -/
theorem scanList_isSome (h : Host) (pkgName : Str)
    (loader : Str → h.State → Except h.Err h.Value × h.State) (names : List Str)
    (fill fill' : Environment h.Value) (s s' : h.State)
    (hs : scanList h pkgName loader names fill s = (.ok (), fill', s')) (L : Str) :
    (fill'.lookup L).isSome = true ↔
      ((fill.lookup L).isSome = true ∨
        (h.IsIdentifier L = true ∧ pkgName ++ ".".toList ++ L ∈ names)) := by
  induction names generalizing fill s with
  | nil =>
    simp only [scanList, Prod.mk.injEq, true_and] at hs
    simp [← hs.1]
  | cons n ns ih =>
    unfold scanList at hs
    by_cases hp : HasPrefix n (pkgName ++ ".".toList) = true
    · obtain ⟨t, rfl⟩ := (HasPrefix_iff _ _).1 hp
      rw [TrimPrefix_append] at hs
      by_cases hi : h.IsIdentifier t = true
      · simp only [hp, hi, Bool.not_true, Bool.false_eq_true, if_false] at hs
        cases hl : loader (pkgName ++ ".".toList ++ t) s with
        | mk res s1 =>
          rw [hl] at hs
          cases res with
          | error err => simp at hs
          | ok v =>
            simp only at hs
            rw [ih _ _ hs, Environment.lookup_store]
            by_cases ht : t = L
            · subst ht; simp [hi]
            · have : pkgName ++ ".".toList ++ L ≠ pkgName ++ ".".toList ++ t := by
                intro e; exact ht (List.append_cancel_left e).symm
              rw [if_neg ht, List.mem_cons]
              tauto
      · simp only [hp, hi, Bool.not_true, Bool.not_false, Bool.false_eq_true, if_false,
          if_true] at hs
        rw [ih _ _ hs]
        have : ¬ (h.IsIdentifier L = true ∧
            pkgName ++ ".".toList ++ L = pkgName ++ ".".toList ++ t) := by
          rintro ⟨h1, e⟩
          rw [List.append_cancel_left e] at h1
          exact hi h1
        simp only [List.mem_cons]
        tauto
    · simp only [hp, Bool.not_false, if_true] at hs
      rw [ih _ _ hs]
      have : pkgName ++ ".".toList ++ L ≠ n := by
        rintro rfl; exact hp (HasPrefix_append _ _)
      rw [List.mem_cons]
      tauto

/-- A scan, whether it succeeds or fails, leaves every name alone that is not
an identifier `L` with `pkgName.L` among the scanned names. -/
theorem scanList_frame (h : Host) (pkgName : Str)
    (loader : Str → h.State → Except h.Err h.Value × h.State) (names : List Str)
    (fill fill' : Environment h.Value) (s s' : h.State) (r : Except h.Err Unit)
    (hs : scanList h pkgName loader names fill s = (r, fill', s')) (L : Str)
    (hL : ¬ (h.IsIdentifier L = true ∧ pkgName ++ ".".toList ++ L ∈ names)) :
    fill'.lookup L = fill.lookup L := by
  induction names generalizing fill s with
  | nil =>
    simp only [scanList, Prod.mk.injEq] at hs
    rw [← hs.2.1]
  | cons n ns ih =>
    have hL' : ¬ (h.IsIdentifier L = true ∧ pkgName ++ ".".toList ++ L ∈ ns) :=
      fun hc => hL ⟨hc.1, List.mem_cons_of_mem _ hc.2⟩
    unfold scanList at hs
    by_cases hp : HasPrefix n (pkgName ++ ".".toList) = true
    · obtain ⟨t, rfl⟩ := (HasPrefix_iff _ _).1 hp
      rw [TrimPrefix_append] at hs
      by_cases hi : h.IsIdentifier t = true
      · simp only [hp, hi, Bool.not_true, Bool.false_eq_true, if_false] at hs
        cases hl : loader (pkgName ++ ".".toList ++ t) s with
        | mk res s1 =>
          rw [hl] at hs
          cases res with
          | error err =>
            simp only [Prod.mk.injEq] at hs
            rw [← hs.2.1]
          | ok v =>
            simp only at hs
            rw [ih _ _ hs hL', Environment.lookup_store]
            have ht : t ≠ L := by
              rintro rfl
              exact hL ⟨hi, List.mem_cons_self _ _⟩
            rw [if_neg ht]
      · simp only [hp, hi, Bool.not_true, Bool.not_false, Bool.false_eq_true, if_false,
          if_true] at hs
        exact ih _ _ hs hL'
    · simp only [hp, Bool.not_false, if_true] at hs
      exact ih _ _ hs hL'

/-- The function loader never fails and leaves the state alone; what it binds
under an identifier `L` is the callable for `pkgName.L`. -/
theorem scanList_functionLoader (h : Host) (pkgName : Str) (names : List Str)
    (fill : Environment h.Value) (s : h.State) :
    ∃ fill', scanList h pkgName (functionLoader h) names fill s = (.ok (), fill', s) ∧
      ∀ L, h.IsIdentifier L = true → pkgName ++ ".".toList ++ L ∈ names →
        fill'.lookup L =
          some (h.LowerFunc (importedFunc h (pkgName ++ ".".toList ++ L))) := by
  induction names generalizing fill with
  | nil => exact ⟨fill, rfl, fun L _ hL => absurd hL (List.not_mem_nil _)⟩
  | cons n ns ih =>
    unfold scanList
    by_cases hp : HasPrefix n (pkgName ++ ".".toList) = true
    · obtain ⟨t, rfl⟩ := (HasPrefix_iff _ _).1 hp
      rw [TrimPrefix_append]
      by_cases hi : h.IsIdentifier t = true
      · simp only [hp, hi, Bool.not_true, Bool.false_eq_true, if_false, functionLoader]
        obtain ⟨fill', hf, hL⟩ := ih (fill.store t
          (h.LowerFunc (importedFunc h (pkgName ++ ".".toList ++ t))))
        refine ⟨fill', hf, fun L hiL hmem => ?_⟩
        rw [List.mem_cons] at hmem
        by_cases hin : pkgName ++ ".".toList ++ L ∈ ns
        · exact hL L hiL hin
        · have e : L = t := by
            rcases hmem with e | e
            · exact List.append_cancel_left e
            · exact absurd e hin
          subst e
          have hfr := scanList_frame h pkgName (functionLoader h) ns _ _ _ _ _ hf L
            (fun hc => hin hc.2)
          rw [hfr, Environment.lookup_store, if_pos rfl]
      · simp only [hp, hi, Bool.not_true, Bool.not_false, Bool.false_eq_true, if_false,
          if_true]
        obtain ⟨fill', hf, hL⟩ := ih fill
        refine ⟨fill', hf, fun L hiL hmem => hL L hiL ?_⟩
        rw [List.mem_cons] at hmem
        rcases hmem with e | e
        · rw [List.append_cancel_left e] at hiL
          exact absurd hiL hi
        · exact e
    · simp only [hp, Bool.not_false, if_true]
      obtain ⟨fill', hf, hL⟩ := ih fill
      refine ⟨fill', hf, fun L hiL hmem => hL L hiL ?_⟩
      rw [List.mem_cons] at hmem
      rcases hmem with e | e
      · exact absurd (e ▸ HasPrefix_append _ _) hp
      · exact e

/-- What a successful `$import` with a target other than "_" has done. -/
theorem importDirective_ok (h : Host) (a0 a1 : h.Value) (env env' : Environment h.Value)
    (s s' : h.State) (r : List h.Value)
    (h0 : h.KindString a0 = true) (h1 : h.KindString a1 = true)
    (hd : h.ValueString a0 ≠ "_".toList)
    (hok : importDirective h [a0, a1] env s = (.ok r, env', s')) :
    ∃ gs s1 fillG s2 fs fillF,
      h.Globals s = (.ok gs, s1) ∧
      scanList h (h.ValueString a1) h.Global gs
        (if h.ValueString a0 = ".".toList then env else Environment.empty) s1
        = (.ok (), fillG, s2) ∧
      h.Functions s2 = (.ok fs, s') ∧
      scanList h (h.ValueString a1) (functionLoader h) fs fillG s' = (.ok (), fillF, s') ∧
      env' = rootView h env (h.ValueString a0) (h.ValueString a1) fillF ∧ r = [] := by
  unfold importDirective at hok
  simp only [h0, h1, Bool.not_true, Bool.false_eq_true, if_false, hd] at hok
  cases hG : h.Globals s with
  | mk resG s1 =>
    rw [hG] at hok
    cases resG with
    | error err => simp at hok
    | ok gs =>
      simp only at hok
      cases hSG : scanList h (h.ValueString a1) h.Global gs
          (if h.ValueString a0 = ".".toList then env else Environment.empty) s1 with
      | mk resSG rest =>
        obtain ⟨fillG, s2⟩ := rest
        rw [hSG] at hok
        cases resSG with
        | error err => simp at hok
        | ok u =>
          simp only at hok
          cases hF : h.Functions s2 with
          | mk resF s3 =>
            rw [hF] at hok
            cases resF with
            | error err => simp at hok
            | ok fs =>
              simp only at hok
              obtain ⟨fillF, hSF, -⟩ :=
                scanList_functionLoader h (h.ValueString a1) fs fillG s3
              rw [hSF] at hok
              simp only [Prod.mk.injEq, Except.ok.injEq] at hok
              obtain ⟨hr, he, hs⟩ := hok
              subst hs
              exact ⟨gs, s1, fillG, s2, fs, fillF, rfl, hSG, hF, hSF, he.symm, hr.symm⟩

/-- The result of `$import` when both enumerations and both scans succeed. -/
theorem importDirective_of_scans (h : Host) (a0 a1 : h.Value) (env : Environment h.Value)
    (s s1 s2 s3 s4 : h.State) (gs fs : List Str) (fillG fillF : Environment h.Value)
    (h0 : h.KindString a0 = true) (h1 : h.KindString a1 = true)
    (hd : h.ValueString a0 ≠ "_".toList)
    (hG : h.Globals s = (.ok gs, s1))
    (hSG : scanList h (h.ValueString a1) h.Global gs
        (if h.ValueString a0 = ".".toList then env else Environment.empty) s1
        = (.ok (), fillG, s2))
    (hF : h.Functions s2 = (.ok fs, s3))
    (hSF : scanList h (h.ValueString a1) (functionLoader h) fs fillG s3
        = (.ok (), fillF, s4)) :
    importDirective h [a0, a1] env s =
      (.ok [], rootView h env (h.ValueString a0) (h.ValueString a1) fillF, s4) := by
  unfold importDirective
  simp only [h0, h1, Bool.not_true, Bool.false_eq_true, if_false, hd, hG, hSG, hF, hSF]

/-! ## C1: the normalizer is not idempotent -/

/-- C1, counterexample: the namespace the Normalizer derives from
"github.com/foo/bar.Baz" is "github.com/foo/bar", and running the Normalizer
on that namespace does not give it back: it gives "github.com/foo". -/
theorem normalize_not_idempotent :
    normalize "github.com/foo/bar.Baz".toList = some "github.com/foo/bar".toList ∧
    normalize "github.com/foo/bar".toList = some "github.com/foo".toList ∧
    normalize "github.com/foo/bar".toList ≠ some "github.com/foo/bar".toList := by
  decide

/-- C1, amended: the only namespace that the Normalizer maps to itself is the
empty one.  For every string `ns`, running the Normalizer on `ns` yields `ns`
again if and only if `ns` is empty. -/
theorem normalize_fixed_point_iff (ns : Str) : normalize ns = some ns ↔ ns = [] :=
  normalize_self_iff ns

/-! ## C2: the output of `packages` is strictly ascending -/

/-- C2: whenever the three enumerations of the service succeed, with any
lists of globals, functions and declared types, `packages` returns a list
that is in strictly ascending lexicographic order. -/
theorem packages_strictly_ascending (h : Host) (s s1 s2 s3 : h.State)
    (gs fs : List Str) (ts : List h.RType)
    (hG : h.Globals s = (.ok gs, s1)) (hF : h.Functions s1 = (.ok fs, s2))
    (hT : h.Types s2 = (.ok ts, s3)) :
    ∃ out, packages h s = (.ok out, s3) ∧ out.Sorted (· < ·) :=
  ⟨_, packages_eq_packagesOf h hG hF hT, packagesOf_strict _ _ _⟩

/-- C2 at the small host: its namespaces are "fmt", "net/http" and "os". -/
theorem packages_strictly_ascending_witness :
    Demo.host.Globals (0 : Nat) = (.ok Demo.globalNames, (0 : Nat)) ∧
    Demo.host.Functions (0 : Nat) = (.ok Demo.functionNames, (0 : Nat)) ∧
    Demo.host.Types (0 : Nat)
      = (.ok [("net/http".toList, "Client".toList)], (0 : Nat)) ∧
    (packages Demo.host (0 : Nat)).1
      = .ok ["fmt".toList, "net/http".toList, "os".toList] ∧
    ∃ out, packages Demo.host (0 : Nat) = (.ok out, (0 : Nat)) ∧ out.Sorted (· < ·) :=
  ⟨rfl, rfl, rfl, rfl,
    packages_strictly_ascending Demo.host (0 : Nat) (0 : Nat) (0 : Nat) (0 : Nat)
      Demo.globalNames Demo.functionNames [("net/http".toList, "Client".toList)] rfl rfl rfl⟩

/-! ## C3: names with a marker contribute no namespace -/

/-- C3: names that begin with "go:" or "struct {" contribute nothing.  If two
symbol tables have the same declared-type namespaces and their lists of
globals, and of functions, agree once the names with a marker are left out
(so one arises from the other by inserting such names anywhere), `packages`
returns the same list for both.  If all globals and functions have a marker
and there are no types, `packages` returns the empty list. -/
theorem packages_skips_marked_names :
    (∀ (h h' : Host) (s s1 s2 s3 : h.State) (t t1 t2 t3 : h'.State)
      (gs gs' fs fs' : List Str) (ts : List h.RType) (ts' : List h'.RType),
      h.Globals s = (.ok gs, s1) → h.Functions s1 = (.ok fs, s2) →
      h.Types s2 = (.ok ts, s3) →
      h'.Globals t = (.ok gs', t1) → h'.Functions t1 = (.ok fs', t2) →
      h'.Types t2 = (.ok ts', t3) →
      ts'.map h'.PkgPath = ts.map h.PkgPath →
      gs'.filter (fun n => !(HasPrefix n "go:".toList || HasPrefix n "struct \x7b".toList))
        = gs.filter (fun n => !(HasPrefix n "go:".toList || HasPrefix n "struct \x7b".toList)) →
      fs'.filter (fun n => !(HasPrefix n "go:".toList || HasPrefix n "struct \x7b".toList))
        = fs.filter (fun n => !(HasPrefix n "go:".toList || HasPrefix n "struct \x7b".toList)) →
      ∃ out, packages h s = (.ok out, s3) ∧ packages h' t = (.ok out, t3)) ∧
    (∀ (h : Host) (s s1 s2 s3 : h.State) (gs fs : List Str),
      h.Globals s = (.ok gs, s1) → h.Functions s1 = (.ok fs, s2) →
      h.Types s2 = (.ok [], s3) →
      (∀ n ∈ gs, (HasPrefix n "go:".toList || HasPrefix n "struct \x7b".toList) = true) →
      (∀ n ∈ fs, (HasPrefix n "go:".toList || HasPrefix n "struct \x7b".toList) = true) →
      packages h s = (.ok [], s3)) := by
  constructor
  · intro h h' s s1 s2 s3 t t1 t2 t3 gs gs' fs fs' ts ts' hG hF hT hG' hF' hT' hts hgs hfs
    refine ⟨_, packages_eq_packagesOf h hG hF hT, ?_⟩
    rw [packages_eq_packagesOf h' hG' hF' hT', hts]
    unfold packagesOf
    rw [← process_filter gs', ← process_filter fs', hgs, hfs, process_filter, process_filter]
  · intro h s s1 s2 s3 gs fs hG hF hT hgs hfs
    rw [packages_eq_packagesOf h hG hF hT]
    unfold packagesOf
    have e : ∀ l : List Str,
        (∀ n ∈ l, (HasPrefix n "go:".toList || HasPrefix n "struct \x7b".toList) = true) →
        l.filter (fun n => !(HasPrefix n "go:".toList || HasPrefix n "struct \x7b".toList))
          = [] := by
      intro l hl
      rw [List.filter_eq_nil_iff]
      intro n hn
      simp only [hl n hn, Bool.not_true, Bool.false_eq_true, not_false_eq_true]
    rw [← process_filter gs, ← process_filter fs, e gs hgs, e fs hfs]
    rfl

/-- C3 at the small host: adding "struct { x int }.f" to its globals and
"go:buildid" to its functions leaves its namespaces as they are, and a symbol
table that holds only "go:itab" and "struct { x int }.f" has no namespace. -/
theorem packages_skips_marked_names_witness :
    (packages Demo.host (0 : Nat)).1 = .ok ["fmt".toList, "net/http".toList, "os".toList] ∧
    (∃ out, packages Demo.host (0 : Nat) = (.ok out, (0 : Nat)) ∧
      packages Demo.padded (0 : Nat) = (.ok out, (0 : Nat))) ∧
    packages Demo.markedOnly (0 : Nat) = (.ok [], (0 : Nat)) :=
  ⟨rfl,
    packages_skips_marked_names.1 Demo.host Demo.padded
      (0 : Nat) (0 : Nat) (0 : Nat) (0 : Nat) (0 : Nat) (0 : Nat) (0 : Nat) (0 : Nat)
      Demo.globalNames ("struct \x7b x int \x7d.f".toList :: Demo.globalNames)
      Demo.functionNames (Demo.functionNames ++ ["go:buildid".toList])
      [("net/http".toList, "Client".toList)] [("net/http".toList, "Client".toList)]
      rfl rfl rfl rfl rfl rfl rfl (by decide) (by decide),
    packages_skips_marked_names.2 Demo.markedOnly
      (0 : Nat) (0 : Nat) (0 : Nat) (0 : Nat)
      ["go:itab".toList] ["struct \x7b x int \x7d.f".toList]
      rfl rfl rfl (by decide) (by decide)⟩

/-! ## C4: the member filter -/

/-- C4: for every namespace `pkg` and every list of qualified names,
`filterNames` returns a list that is sorted ascending and is a rearrangement
of exactly the names that start with `pkg ++ "."`, each with that prefix
removed.  When no name starts with `pkg ++ "."` the result is empty, and for
`[pkg.a, pkg.b, other]` with `a ≤ b` and `other` of another namespace the
result is exactly `[a, b]`. -/
theorem filterNames_sorted_exact (pkg : Str) (names : List Str) :
    (filterNames pkg names).Sorted (· ≤ ·) ∧
    (filterNames pkg names).Perm
      ((names.filter (fun n => decide ((pkg ++ ".".toList) <+: n))).map
        (fun n => n.drop (pkg ++ ".".toList).length)) ∧
    ((∀ n ∈ names, ¬ (pkg ++ ".".toList) <+: n) → filterNames pkg names = []) ∧
    (∀ a b other : Str, a ≤ b → ¬ (pkg ++ ".".toList) <+: other →
      filterNames pkg [pkg ++ ".".toList ++ a, pkg ++ ".".toList ++ b, other] = [a, b]) := by
  have hperm : ∀ l : List Str, (filterNames pkg l).Perm
      ((l.filter (fun n => decide ((pkg ++ ".".toList) <+: n))).map
        (fun n => n.drop (pkg ++ ".".toList).length)) := by
    intro l
    unfold filterNames
    simp only
    rw [filterLoop_spec]
    exact sortStrings_perm _
  refine ⟨sortStrings_sorted _, hperm names, ?_, ?_⟩
  · intro hno
    have e : names.filter (fun n => decide ((pkg ++ ".".toList) <+: n)) = [] := by
      rw [List.filter_eq_nil_iff]
      intro n hn
      simpa using hno n hn
    have := hperm names
    rw [e] at this
    exact List.Perm.eq_nil this
  · intro a b other hab hother
    have hs : [a, b].Sorted (· ≤ ·) := by simp [hab]
    refine List.eq_of_perm_of_sorted ((hperm _).trans ?_) (sortStrings_sorted _) hs
    simpa [List.filter_cons] using hother

/-- C4 at namespace "fmt": of "fmt.b", "os.c" and "fmt.a" the members are
"a" and "b". -/
theorem filterNames_sorted_exact_witness :
    filterNames "fmt".toList ["fmt.b".toList, "os.c".toList, "fmt.a".toList]
      = ["a".toList, "b".toList] ∧
    ("a".toList ≤ "b".toList ∧ ¬ ("fmt".toList ++ ".".toList) <+: "os.c".toList ∧
      filterNames "fmt".toList
        ["fmt".toList ++ ".".toList ++ "a".toList, "fmt".toList ++ ".".toList ++ "b".toList,
          "os.c".toList] = ["a".toList, "b".toList]) ∧
    ((∀ n ∈ ["os.c".toList], ¬ ("fmt".toList ++ ".".toList) <+: n) ∧
      filterNames "fmt".toList ["os.c".toList] = []) :=
  ⟨by decide,
    ⟨by decide, by decide,
      (filterNames_sorted_exact "fmt".toList []).2.2.2 "a".toList "b".toList "os.c".toList
        (by decide) (by decide)⟩,
    ⟨by decide,
      (filterNames_sorted_exact "fmt".toList ["os.c".toList]).2.2.1 (by decide)⟩⟩

/-! ## C5: an enumeration failure during `$import` -/

/-- C5, counterexample: on an empty root Environment, `$import("t", "fmt")`
against a service whose enumeration of globals fails returns the error, and
afterwards the root Environment binds "t" to an empty child Environment; it is
not as it was before the call. -/
theorem import_failure_leaves_child_bound :
    Demo.broken.Globals (0 : Nat) = (.error "no symbol table", (0 : Nat)) ∧
    (importDirective Demo.broken [.str "t".toList, .str "fmt".toList]
      Environment.empty (0 : Nat)).1 = .error "no symbol table" ∧
    (importDirective Demo.broken [.str "t".toList, .str "fmt".toList]
      Environment.empty (0 : Nat)).2.1.lookup "t".toList
        = some (Demo.Val.struct Environment.empty) ∧
    (Environment.empty : Environment Demo.Val).lookup "t".toList = none ∧
    (importDirective Demo.broken [.str "t".toList, .str "fmt".toList]
      Environment.empty (0 : Nat)).2.1 ≠ Environment.empty := by
  refine ⟨rfl, rfl, rfl, rfl, ?_⟩
  intro e
  have := congrArg (fun env => (Environment.lookup env "t".toList).isSome) e
  exact absurd this (by decide)

/-- C5, amended: if the enumeration of globals fails, `$import` with a target
other than "_" returns that error.  With the merge target "." the root
Environment is exactly as before; with any other target the root Environment
is as before except that the target name (the default name for target "") is
bound to a new, empty child Environment. -/
theorem import_globals_failure (h : Host) (a0 a1 : h.Value) (env : Environment h.Value)
    (s s1 : h.State) (err : h.Err)
    (h0 : h.KindString a0 = true) (h1 : h.KindString a1 = true)
    (hd : h.ValueString a0 ≠ "_".toList)
    (hG : h.Globals s = (.error err, s1)) :
    importDirective h [a0, a1] env s =
      (.error err,
        if h.ValueString a0 = ".".toList then env
        else env.store (importTarget h (h.ValueString a0) (h.ValueString a1))
          (h.LowerStruct Environment.empty),
        s1) := by
  unfold importDirective
  simp only [h0, h1, Bool.not_true, Bool.false_eq_true, if_false, hd, hG, rootView]
  by_cases hm : h.ValueString a0 = ".".toList
  · simp only [hm, if_true]
  · simp only [hm, if_false]

/-- C5, amended, at the small host with an unreadable symbol table: a
merge import fails and leaves the root Environment of `Env` as it was. -/
theorem import_globals_failure_witness :
    Demo.broken.KindString (.str ".".toList) = true ∧
    Demo.broken.KindString (.str "fmt".toList) = true ∧
    Demo.broken.ValueString (.str ".".toList) ≠ "_".toList ∧
    Demo.broken.Globals (0 : Nat) = (.error "no symbol table", (0 : Nat)) ∧
    importDirective Demo.broken [.str ".".toList, .str "fmt".toList] (Env Demo.broken)
      (0 : Nat) = (.error "no symbol table", Env Demo.broken, (0 : Nat)) :=
  ⟨rfl, rfl, by decide, rfl,
    import_globals_failure Demo.broken (.str ".".toList) (.str "fmt".toList)
      (Env Demo.broken) (0 : Nat) (0 : Nat) "no symbol table" rfl rfl (by decide) rfl⟩

/-! ## C6: what a named import binds -/

/-- C6: for a target `t` other than "_" and ".", a successful `$import` of a
namespace `N` leaves the root Environment with a child Environment bound
under `t`, or, when `t` is the empty string, under the default name
`importPathToNameBasic(N)`.  The keys of that child are exactly the local
names `L` such that `L` is a valid identifier and `N ++ "." ++ L` is among the
globals or the functions that the service enumerated during the call. -/
theorem import_named_child_keys (h : Host) (a0 a1 : h.Value) (env env' : Environment h.Value)
    (s s' : h.State) (r : List h.Value)
    (h0 : h.KindString a0 = true) (h1 : h.KindString a1 = true)
    (hd : h.ValueString a0 ≠ "_".toList) (hm : h.ValueString a0 ≠ ".".toList)
    (hok : importDirective h [a0, a1] env s = (.ok r, env', s')) :
    ∃ gs fs s1 s2 child,
      h.Globals s = (.ok gs, s1) ∧
      (scanList h (h.ValueString a1) h.Global gs Environment.empty s1).2.2 = s2 ∧
      h.Functions s2 = (.ok fs, s') ∧
      (h.ValueString a0 = "".toList →
        env'.lookup (h.importPathToNameBasic (h.ValueString a1))
          = some (h.LowerStruct child)) ∧
      (h.ValueString a0 ≠ "".toList →
        env'.lookup (h.ValueString a0) = some (h.LowerStruct child)) ∧
      ∀ L, L ∈ child.keys ↔
        (h.IsIdentifier L = true ∧
          (h.ValueString a1 ++ ".".toList ++ L ∈ gs ∨
            h.ValueString a1 ++ ".".toList ++ L ∈ fs)) := by
  obtain ⟨gs, s1, fillG, s2, fs, fillF, hG, hSG, hF, hSF, he, -⟩ :=
    importDirective_ok h a0 a1 env env' s s' r h0 h1 hd hok
  rw [if_neg hm] at hSG
  have hkey : env'.lookup (importTarget h (h.ValueString a0) (h.ValueString a1))
      = some (h.LowerStruct fillF) := by
    rw [he, rootView, if_neg hm, Environment.lookup_store, if_pos rfl]
  refine ⟨gs, fs, s1, s2, fillF, hG, by rw [hSG], hF, ?_, ?_, ?_⟩
  · intro ht
    have e : importTarget h (h.ValueString a0) (h.ValueString a1)
        = h.importPathToNameBasic (h.ValueString a1) := by
      unfold importTarget
      exact if_pos ht
    rw [← e]; exact hkey
  · intro ht
    have e : importTarget h (h.ValueString a0) (h.ValueString a1) = h.ValueString a0 := by
      unfold importTarget
      exact if_neg ht
    rw [← e]; exact hkey
  · intro L
    rw [← Environment.lookup_isSome_iff, scanList_isSome h _ _ _ _ _ _ _ hSF L,
      scanList_isSome h _ _ _ _ _ _ _ hSG L, Environment.lookup_empty]
    simp only [Option.isSome_none, Bool.false_eq_true, false_or]
    tauto

/-- C6 at the small hosts.  Importing "net/http" with target "" binds the
default name "http", and not "", to a child with the keys "Get" and
"DefaultClient"; "x-y" is not an identifier and "net/url.Parse" belongs to
another namespace.  Importing "fmt" under "f" binds "f" to a child with the
keys "Println" and "Version". -/
theorem import_named_child_keys_witness :
    (importDirective Demo.pathHost [.str "".toList, .str "net/http".toList]
      Environment.empty (0 : Nat)).1 = .ok [] ∧
    (importDirective Demo.pathHost [.str "".toList, .str "net/http".toList]
      Environment.empty (0 : Nat)).2.1.lookup "http".toList
      = some (.struct ((Environment.empty.store "DefaultClient".toList
          (.str "net/http.DefaultClient".toList)).store "Get".toList .lowered)) ∧
    (importDirective Demo.pathHost [.str "".toList, .str "net/http".toList]
      Environment.empty (0 : Nat)).2.1.lookup "".toList = none ∧
    (∃ gs fs s1 s2 child,
      Demo.pathHost.Globals (0 : Nat) = (.ok gs, s1) ∧
      (scanList Demo.pathHost (Demo.pathHost.ValueString (.str "net/http".toList))
        Demo.pathHost.Global gs Environment.empty s1).2.2 = s2 ∧
      Demo.pathHost.Functions s2 = (.ok fs, (0 : Nat)) ∧
      (Demo.pathHost.ValueString (.str "".toList) = "".toList →
        (importDirective Demo.pathHost [.str "".toList, .str "net/http".toList]
          Environment.empty (0 : Nat)).2.1.lookup
            (Demo.pathHost.importPathToNameBasic
              (Demo.pathHost.ValueString (.str "net/http".toList)))
          = some (Demo.pathHost.LowerStruct child)) ∧
      (Demo.pathHost.ValueString (.str "".toList) ≠ "".toList →
        (importDirective Demo.pathHost [.str "".toList, .str "net/http".toList]
          Environment.empty (0 : Nat)).2.1.lookup
            (Demo.pathHost.ValueString (.str "".toList))
          = some (Demo.pathHost.LowerStruct child)) ∧
      ∀ L, L ∈ child.keys ↔
        (Demo.pathHost.IsIdentifier L = true ∧
          (Demo.pathHost.ValueString (.str "net/http".toList) ++ ".".toList ++ L ∈ gs ∨
            Demo.pathHost.ValueString (.str "net/http".toList) ++ ".".toList ++ L ∈ fs))) ∧
    (importDirective Demo.host [.str "f".toList, .str "fmt".toList] Environment.empty
      (0 : Nat)).2.1.lookup "f".toList
      = some (.struct ((Environment.empty.store "Version".toList (.int 3)).store
          "Println".toList .lowered)) ∧
    (∃ gs fs s1 s2 child,
      Demo.host.Globals (0 : Nat) = (.ok gs, s1) ∧
      (scanList Demo.host (Demo.host.ValueString (.str "fmt".toList)) Demo.host.Global gs
        Environment.empty s1).2.2 = s2 ∧
      Demo.host.Functions s2 = (.ok fs, (0 : Nat)) ∧
      (Demo.host.ValueString (.str "f".toList) = "".toList →
        (importDirective Demo.host [.str "f".toList, .str "fmt".toList] Environment.empty
          (0 : Nat)).2.1.lookup
            (Demo.host.importPathToNameBasic (Demo.host.ValueString (.str "fmt".toList)))
          = some (Demo.host.LowerStruct child)) ∧
      (Demo.host.ValueString (.str "f".toList) ≠ "".toList →
        (importDirective Demo.host [.str "f".toList, .str "fmt".toList] Environment.empty
          (0 : Nat)).2.1.lookup (Demo.host.ValueString (.str "f".toList))
          = some (Demo.host.LowerStruct child)) ∧
      ∀ L, L ∈ child.keys ↔
        (Demo.host.IsIdentifier L = true ∧
          (Demo.host.ValueString (.str "fmt".toList) ++ ".".toList ++ L ∈ gs ∨
            Demo.host.ValueString (.str "fmt".toList) ++ ".".toList ++ L ∈ fs))) :=
  ⟨rfl, rfl, rfl,
    import_named_child_keys Demo.pathHost (.str "".toList) (.str "net/http".toList)
      Environment.empty _ (0 : Nat) (0 : Nat) [] rfl rfl (by decide) (by decide) rfl,
    rfl,
    import_named_child_keys Demo.host (.str "f".toList) (.str "fmt".toList)
      Environment.empty _ (0 : Nat) (0 : Nat) [] rfl rfl (by decide) (by decide) rfl⟩

/-! ## C7: a merge import binds the same members in the root -/

/-- C7: if `$import(".", N)` succeeds, then a named import of `N` (any target
other than "_" and ".", into any root Environment) from the same service
state succeeds too, and for every valid identifier `L` such that
`N ++ "." ++ L` is an enumerated global or function, the root Environment
after the merge import binds `L`, to the very binding that the child
Environment of the named import holds for `L`. -/
theorem import_merge_same_bindings (h : Host) (a0 b0 a1 : h.Value)
    (env env' envN : Environment h.Value) (s s' : h.State) (r : List h.Value)
    (h0 : h.KindString a0 = true) (hb0 : h.KindString b0 = true)
    (h1 : h.KindString a1 = true)
    (hm : h.ValueString a0 = ".".toList)
    (hbd : h.ValueString b0 ≠ "_".toList) (hbm : h.ValueString b0 ≠ ".".toList)
    (hok : importDirective h [a0, a1] env s = (.ok r, env', s')) :
    ∃ gs fs s1 s2 child,
      h.Globals s = (.ok gs, s1) ∧
      (scanList h (h.ValueString a1) h.Global gs Environment.empty s1).2.2 = s2 ∧
      h.Functions s2 = (.ok fs, s') ∧
      importDirective h [b0, a1] envN s =
        (.ok [], envN.store (importTarget h (h.ValueString b0) (h.ValueString a1))
          (h.LowerStruct child), s') ∧
      ∀ L, h.IsIdentifier L = true →
        (h.ValueString a1 ++ ".".toList ++ L ∈ gs ∨
          h.ValueString a1 ++ ".".toList ++ L ∈ fs) →
        (env'.lookup L).isSome = true ∧ env'.lookup L = child.lookup L := by
  have hd : h.ValueString a0 ≠ "_".toList := by rw [hm]; decide
  obtain ⟨gs, s1, fillG, s2, fs, fillF, hG, hSG, hF, hSF, he, -⟩ :=
    importDirective_ok h a0 a1 env env' s s' r h0 h1 hd hok
  rw [if_pos hm] at hSG
  -- the same scans, started from the empty child
  have hSG0 := scanList_append h (h.ValueString a1) h.Global gs env s1
  rw [hSG] at hSG0
  simp only [Prod.mk.injEq] at hSG0
  obtain ⟨hr1, hfG, hs2⟩ := hSG0
  have hSGc : scanList h (h.ValueString a1) h.Global gs Environment.empty s1 =
      (.ok (), (scanList h (h.ValueString a1) h.Global gs Environment.empty s1).2.1, s2) := by
    rw [hr1, hs2]
  obtain ⟨childF, hSFc, -⟩ := scanList_functionLoader h (h.ValueString a1) fs
    (scanList h (h.ValueString a1) h.Global gs Environment.empty s1).2.1 s'
  refine ⟨gs, fs, s1, s2, childF, hG, hs2.symm, hF, ?_, ?_⟩
  · have := importDirective_of_scans h b0 a1 envN s s1 s2 s' s' gs fs _ childF hb0 h1 hbd hG
      (by rw [if_neg hbm]; exact hSGc) hF hSFc
    rw [this, rootView, if_neg hbm]
  · intro L hi hL
    have hsome : (childF.lookup L).isSome = true := by
      rw [scanList_isSome h _ _ _ _ _ _ _ hSFc L, scanList_isSome h _ _ _ _ _ _ _ hSGc L]
      tauto
    have hA := scanList_append h (h.ValueString a1) (functionLoader h) fs fillG s'
    have hB := scanList_append h (h.ValueString a1) (functionLoader h) fs
      (scanList h (h.ValueString a1) h.Global gs Environment.empty s1).2.1 s'
    rw [hSF] at hA
    rw [hSFc] at hB
    simp only [Prod.mk.injEq] at hA hB
    have e1 : env'.lookup L = fillF.lookup L := by
      rw [he, rootView, if_pos hm]
    have e2 : fillF.lookup L = childF.lookup L := by
      rw [hA.2.1, hfG]
      show (Environment.mk (_ ++ (_ ++ env.entries))).lookup L = _
      rw [← List.append_assoc, Environment.lookup_append, ← hB.2.1]
      cases hx : childF.lookup L with
      | none => rw [hx] at hsome; simp at hsome
      | some v => rfl
    rw [e1, e2]
    exact ⟨hsome, rfl⟩

/-- C7 at the small host: after `$import(".", "fmt")` the root Environment
binds "Version" and "Println" as the child of `$import("f", "fmt")` does. -/
theorem import_merge_same_bindings_witness :
    (importDirective Demo.host [.str ".".toList, .str "fmt".toList] (Env Demo.host)
      (0 : Nat)).1 = .ok [] ∧
    (importDirective Demo.host [.str ".".toList, .str "fmt".toList] (Env Demo.host)
      (0 : Nat)).2.1.lookup "Version".toList = some (.int 3) ∧
    (∃ gs fs s1 s2 child,
      Demo.host.Globals (0 : Nat) = (.ok gs, s1) ∧
      (scanList Demo.host (Demo.host.ValueString (.str "fmt".toList)) Demo.host.Global gs
        Environment.empty s1).2.2 = s2 ∧
      Demo.host.Functions s2 = (.ok fs, (0 : Nat)) ∧
      importDirective Demo.host [.str "f".toList, .str "fmt".toList] Environment.empty
        (0 : Nat) =
        (.ok [], Environment.empty.store
          (importTarget Demo.host (Demo.host.ValueString (.str "f".toList))
            (Demo.host.ValueString (.str "fmt".toList)))
          (Demo.host.LowerStruct child), (0 : Nat)) ∧
      ∀ L, Demo.host.IsIdentifier L = true →
        (Demo.host.ValueString (.str "fmt".toList) ++ ".".toList ++ L ∈ gs ∨
          Demo.host.ValueString (.str "fmt".toList) ++ ".".toList ++ L ∈ fs) →
        ((importDirective Demo.host [.str ".".toList, .str "fmt".toList] (Env Demo.host)
          (0 : Nat)).2.1.lookup L).isSome = true ∧
        (importDirective Demo.host [.str ".".toList, .str "fmt".toList] (Env Demo.host)
          (0 : Nat)).2.1.lookup L = child.lookup L) :=
  ⟨rfl, rfl,
    import_merge_same_bindings Demo.host (.str ".".toList) (.str "f".toList)
      (.str "fmt".toList) (Env Demo.host) _ Environment.empty (0 : Nat) (0 : Nat) []
      rfl rfl rfl rfl (by decide) (by decide) rfl⟩

/-! ## C8: a discard import changes nothing -/

/-- C8: with two string arguments and target "_", `$import` returns success
with no results, and the root Environment (with every child Environment it
holds) and the state of the service are exactly as before. -/
theorem import_discard_unchanged (h : Host) (a0 a1 : h.Value) (env : Environment h.Value)
    (s : h.State) (h0 : h.KindString a0 = true) (h1 : h.KindString a1 = true)
    (ht : h.ValueString a0 = "_".toList) :
    importDirective h [a0, a1] env s = (.ok [], env, s) := by
  unfold importDirective
  simp only [h0, h1, Bool.not_true, Bool.false_eq_true, if_false, ht, if_true]

/-- C8 at the small host: `$import("_", "fmt")` on the root Environment of
`Env`. -/
theorem import_discard_unchanged_witness :
    Demo.host.KindString (.str "_".toList) = true ∧
    Demo.host.KindString (.str "fmt".toList) = true ∧
    Demo.host.ValueString (.str "_".toList) = "_".toList ∧
    importDirective Demo.host [.str "_".toList, .str "fmt".toList] (Env Demo.host) (0 : Nat)
      = (.ok [], Env Demo.host, (0 : Nat)) :=
  ⟨rfl, rfl, rfl,
    import_discard_unchanged Demo.host (.str "_".toList) (.str "fmt".toList) (Env Demo.host)
      (0 : Nat) rfl rfl rfl⟩

/-! ## C9: the callables bound by an import -/

/-- C9: after a successful `$import` of namespace `N` (target other than "_"),
for every valid identifier `L` such that `N ++ "." ++ L` is an enumerated
function, the filled Environment (the root for ".", else the child) binds `L`
to the callable built for `N ++ "." ++ L`; and that callable, invoked with any
arguments `xs` in any state, returns exactly what `call` returns for
`(N, L, xs...)`: both ask the service to invoke `N ++ "." ++ L` with `xs` in
the same order, and return its results or its error. -/
theorem imported_callable_eq_call (h : Host) (a0 a1 : h.Value)
    (env env' : Environment h.Value) (s s' : h.State) (r : List h.Value)
    (h0 : h.KindString a0 = true) (h1 : h.KindString a1 = true)
    (hd : h.ValueString a0 ≠ "_".toList)
    (hok : importDirective h [a0, a1] env s = (.ok r, env', s')) :
    ∃ gs fs s1 s2 fill,
      h.Globals s = (.ok gs, s1) ∧
      (scanList h (h.ValueString a1) h.Global gs Environment.empty s1).2.2 = s2 ∧
      h.Functions s2 = (.ok fs, s') ∧
      env' = rootView h env (h.ValueString a0) (h.ValueString a1) fill ∧
      ∀ L, h.IsIdentifier L = true → h.ValueString a1 ++ ".".toList ++ L ∈ fs →
        fill.lookup L
          = some (h.LowerFunc (importedFunc h (h.ValueString a1 ++ ".".toList ++ L))) ∧
        ∀ (n l : h.Value) (xs : List h.Value) (e : Environment h.Value) (t : h.State),
          h.KindString n = true → h.ValueString n = h.ValueString a1 →
          h.KindString l = true → h.ValueString l = L →
          importedFunc h (h.ValueString a1 ++ ".".toList ++ L) xs e t
            = call h (n :: l :: xs) e t ∧
          call h (n :: l :: xs) e t =
            (((h.Call (h.ValueString a1 ++ ".".toList ++ L) (xs.map h.Interface) t).1).map
                (List.map h.ValueOf),
              e, (h.Call (h.ValueString a1 ++ ".".toList ++ L) (xs.map h.Interface) t).2) := by
  obtain ⟨gs, s1, fillG, s2, fs, fillF, hG, hSG, hF, hSF, he, -⟩ :=
    importDirective_ok h a0 a1 env env' s s' r h0 h1 hd hok
  have hs2 : (scanList h (h.ValueString a1) h.Global gs Environment.empty s1).2.2 = s2 := by
    have := scanList_append h (h.ValueString a1) h.Global gs
      (if h.ValueString a0 = ".".toList then env else Environment.empty) s1
    rw [hSG] at this
    simp only [Prod.mk.injEq] at this
    exact this.2.2.symm
  obtain ⟨fillF', hSF', hL⟩ := scanList_functionLoader h (h.ValueString a1) fs fillG s'
  rw [hSF] at hSF'
  simp only [Prod.mk.injEq, true_and, and_true] at hSF'
  subst hSF'
  refine ⟨gs, fs, s1, s2, fillF, hG, hs2, hF, he, fun L hi hmem => ⟨hL L hi hmem, ?_⟩⟩
  intro n l xs e t hn hnv hl hlv
  have hcall : call h (n :: l :: xs) e t =
      (((h.Call (h.ValueString a1 ++ ".".toList ++ L) (xs.map h.Interface) t).1).map
          (List.map h.ValueOf),
        e, (h.Call (h.ValueString a1 ++ ".".toList ++ L) (xs.map h.Interface) t).2) := by
    unfold call
    simp only [hn, hl, Bool.not_true, Bool.false_eq_true, if_false, hnv, hlv]
    cases h.Call (h.ValueString a1 ++ ".".toList ++ L) (xs.map h.Interface) t with
    | mk res t1 => cases res <;> rfl
  refine ⟨?_, hcall⟩
  rw [hcall]
  unfold importedFunc
  simp only
  cases h.Call (h.ValueString a1 ++ ".".toList ++ L) (xs.map h.Interface) t with
  | mk res t1 => cases res <;> rfl

/-- C9 at the small host: after `$import(".", "fmt")` the callable bound for
"fmt.Println" and `call("fmt", "Println", 1, 2)` both return the results 1, 2
and count one invocation. -/
theorem imported_callable_eq_call_witness :
    (importDirective Demo.host [.str ".".toList, .str "fmt".toList] Environment.empty
      (0 : Nat)).1 = .ok [] ∧
    call Demo.host [.str "fmt".toList, .str "Println".toList, .int 1, .int 2]
      Environment.empty (0 : Nat) = (.ok [.int 1, .int 2], Environment.empty, (1 : Nat)) ∧
    importedFunc Demo.host "fmt.Println".toList [.int 1, .int 2]
      Environment.empty (0 : Nat) = (.ok [.int 1, .int 2], Environment.empty, (1 : Nat)) ∧
    (∃ gs fs s1 s2 fill,
      Demo.host.Globals (0 : Nat) = (.ok gs, s1) ∧
      (scanList Demo.host (Demo.host.ValueString (.str "fmt".toList)) Demo.host.Global gs
        Environment.empty s1).2.2 = s2 ∧
      Demo.host.Functions s2 = (.ok fs, (0 : Nat)) ∧
      (importDirective Demo.host [.str ".".toList, .str "fmt".toList] Environment.empty
        (0 : Nat)).2.1
        = rootView Demo.host Environment.empty (Demo.host.ValueString (.str ".".toList))
            (Demo.host.ValueString (.str "fmt".toList)) fill ∧
      ∀ L, Demo.host.IsIdentifier L = true →
        Demo.host.ValueString (.str "fmt".toList) ++ ".".toList ++ L ∈ fs →
        fill.lookup L
          = some (Demo.host.LowerFunc (importedFunc Demo.host
              (Demo.host.ValueString (.str "fmt".toList) ++ ".".toList ++ L))) ∧
        ∀ (n l : Demo.host.Value) (xs : List Demo.host.Value)
          (e : Environment Demo.host.Value) (t : Demo.host.State),
          Demo.host.KindString n = true →
          Demo.host.ValueString n = Demo.host.ValueString (.str "fmt".toList) →
          Demo.host.KindString l = true → Demo.host.ValueString l = L →
          importedFunc Demo.host
              (Demo.host.ValueString (.str "fmt".toList) ++ ".".toList ++ L) xs e t
            = call Demo.host (n :: l :: xs) e t ∧
          call Demo.host (n :: l :: xs) e t =
            (((Demo.host.Call (Demo.host.ValueString (.str "fmt".toList) ++ ".".toList ++ L)
                (xs.map Demo.host.Interface) t).1).map (List.map Demo.host.ValueOf),
              e, (Demo.host.Call (Demo.host.ValueString (.str "fmt".toList) ++ ".".toList ++ L)
                (xs.map Demo.host.Interface) t).2)) :=
  ⟨rfl, rfl, rfl,
    imported_callable_eq_call Demo.host (.str ".".toList) (.str "fmt".toList)
      Environment.empty _ (0 : Nat) (0 : Nat) [] rfl rfl (by decide) rfl⟩

/-! ## C10: the discovery listing -/

/-- C10: for every root Environment, `dir` with no argument returns, in
strictly ascending order, exactly the names bound in the root that do not
start with "$"; with a first argument that is a sub-namespace Environment it
returns the same listing of that Environment.  "$import" is bound in the root
Environment built by `Env` and is never listed. -/
theorem dir_lists_unmarked_names (h : Host) (env : Environment h.Value) :
    (∃ out, dir h env [] = .ok out ∧ out.Sorted (· < ·) ∧
      ∀ n, n ∈ out ↔ ((env.lookup n).isSome = true ∧ HasPrefix n "$".toList = false)) ∧
    (∀ (arg : h.Iface) (rest : List h.Iface) (sub : Environment h.Value),
      h.IsLowerStruct arg = some sub →
      ∃ out, dir h env (arg :: rest) = .ok out ∧ out.Sorted (· < ·) ∧
        ∀ n, n ∈ out ↔ ((sub.lookup n).isSome = true ∧ HasPrefix n "$".toList = false)) ∧
    (((Env h).lookup "$import".toList).isSome = true ∧
      ∀ out, dir h (Env h) [] = .ok out → "$import".toList ∉ out) := by
  refine ⟨⟨_, rfl, handleEnv_strict env, mem_handleEnv env⟩, ?_, rfl, ?_⟩
  · intro arg rest sub hsub
    refine ⟨handleEnv sub, ?_, handleEnv_strict sub, mem_handleEnv sub⟩
    unfold dir
    simp only [hsub]
  · intro out hout hmem
    simp only [dir, Except.ok.injEq] at hout
    subst hout
    have := ((mem_handleEnv (Env h) _).1 hmem).2
    exact absurd this (by decide)

/-- C10 at the small host: the listing of a sub-namespace that binds "b",
"$x" and "a" is "a", "b". -/
theorem dir_lists_unmarked_names_witness :
    Demo.host.IsLowerStruct
      (.struct (((Environment.empty.store "b".toList (.int 1)).store
        "$x".toList (.int 2)).store "a".toList (.int 3)))
      = some (((Environment.empty.store "b".toList (.int 1)).store
        "$x".toList (.int 2)).store "a".toList (.int 3)) ∧
    dir Demo.host (Env Demo.host)
      [.struct (((Environment.empty.store "b".toList (.int 1)).store
        "$x".toList (.int 2)).store "a".toList (.int 3))]
      = .ok ["a".toList, "b".toList] ∧
    (∃ out, dir Demo.host (Env Demo.host)
      (.struct (((Environment.empty.store "b".toList (.int 1)).store
        "$x".toList (.int 2)).store "a".toList (.int 3)) :: [])
      = .ok out ∧ out.Sorted (· < ·) ∧
      ∀ n, n ∈ out ↔
        (((((Environment.empty.store "b".toList (Demo.Val.int 1)).store
          "$x".toList (.int 2)).store "a".toList (.int 3)).lookup n).isSome = true ∧
          HasPrefix n "$".toList = false)) :=
  ⟨rfl, rfl,
    (dir_lists_unmarked_names Demo.host (Env Demo.host)).2.1 _ [] _ rfl⟩

/-! ## Lemmas on index searches -/

theorem Index_append {u w : Str} {c : Char} (hu : c ∉ u) :
    Index (u ++ c :: w) c = some u.length := by
  induction u with
  | nil => simp [Index]
  | cons x xs ih =>
    have hx : x ≠ c := fun e => hu (e ▸ List.mem_cons_self _ _)
    have hxs : c ∉ xs := fun e => hu (List.mem_cons_of_mem _ e)
    simp [Index, hx, ih hxs]

theorem Index_eq_none {s : Str} {c : Char} (hs : c ∉ s) : Index s c = none := by
  induction s with
  | nil => rfl
  | cons x xs ih =>
    have hx : x ≠ c := fun e => hs (e ▸ List.mem_cons_self _ _)
    have hxs : c ∉ xs := fun e => hs (List.mem_cons_of_mem _ e)
    simp [Index, hx, ih hxs]

theorem LastIndex_eq_none {s : Str} {c : Char} (hs : c ∉ s) : LastIndex s c = none := by
  induction s with
  | nil => rfl
  | cons x xs ih =>
    have hx : x ≠ c := fun e => hs (e ▸ List.mem_cons_self _ _)
    have hxs : c ∉ xs := fun e => hs (List.mem_cons_of_mem _ e)
    simp [LastIndex, hx, ih hxs]

theorem LastIndex_append {u w : Str} {c : Char} (hw : c ∉ w) :
    LastIndex (u ++ c :: w) c = some u.length := by
  induction u with
  | nil => simp [LastIndex, LastIndex_eq_none hw]
  | cons x xs ih => simp [LastIndex, ih]

/-- A string that holds `c` splits at the last `c`. -/
theorem split_last {s : Str} {c : Char} (hs : c ∈ s) :
    ∃ u v, s = u ++ c :: v ∧ c ∉ v := by
  induction s with
  | nil => exact absurd hs (List.not_mem_nil _)
  | cons x xs ih =>
    by_cases hxs : c ∈ xs
    · obtain ⟨u, v, e, hv⟩ := ih hxs
      exact ⟨x :: u, v, by rw [e]; rfl, hv⟩
    · have hx : c = x := by
        rcases List.mem_cons.1 hs with e | e
        · exact e
        · exact absurd e hxs
      exact ⟨[], xs, by rw [hx]; rfl, hxs⟩

/-- A string that holds `c` splits at the first `c`. -/
theorem split_first {s : Str} {c : Char} (hs : c ∈ s) :
    ∃ u v, s = u ++ c :: v ∧ c ∉ u := by
  induction s with
  | nil => exact absurd hs (List.not_mem_nil _)
  | cons x xs ih =>
    by_cases hx : c = x
    · exact ⟨[], xs, by rw [hx]; rfl, List.not_mem_nil _⟩
    · have hxs : c ∈ xs := by
        rcases List.mem_cons.1 hs with e | e
        · exact absurd e hx
        · exact e
      obtain ⟨u, v, e, hu⟩ := ih hxs
      refine ⟨x :: u, v, by rw [e]; rfl, ?_⟩
      intro hm
      rcases List.mem_cons.1 hm with e' | e'
      · exact hx e'
      · exact hu e'

/-! ## The normalizer by cases -/

/-- No slash and no dot: the namespace is empty. -/
theorem normalize_plain {name : Str}
    (hk : (HasPrefix name "go:".toList || HasPrefix name "struct \x7b".toList) = false)
    (hs : '/' ∉ TrimPrefix (TrimPrefix name "type:.eq.".toList) "type:.hash.".toList)
    (hd : '.' ∉ TrimPrefix (TrimPrefix name "type:.eq.".toList) "type:.hash.".toList) :
    normalize name = some [] := by
  unfold normalize
  simp only [hk, Bool.false_eq_true, if_false, LastIndex_eq_none hs, Index_eq_none hd]

/-- No slash, and a first dot: the namespace is the text before that dot. -/
theorem normalize_dot {name u w : Str}
    (hk : (HasPrefix name "go:".toList || HasPrefix name "struct \x7b".toList) = false)
    (hy : TrimPrefix (TrimPrefix name "type:.eq.".toList) "type:.hash.".toList = u ++ '.' :: w)
    (hs : '/' ∉ u ++ '.' :: w) (hu : '.' ∉ u) :
    normalize name = some u := by
  unfold normalize
  simp only [hk, Bool.false_eq_true, if_false, hy, LastIndex_eq_none hs, Index_append hu,
    List.take_left, List.nil_append]

/-- A last slash with no dot after it: the namespace is the text before that
slash. -/
theorem normalize_slash {name u v : Str}
    (hk : (HasPrefix name "go:".toList || HasPrefix name "struct \x7b".toList) = false)
    (hy : TrimPrefix (TrimPrefix name "type:.eq.".toList) "type:.hash.".toList = u ++ '/' :: v)
    (hs : '/' ∉ v) (hd : '.' ∉ v) :
    normalize name = some u := by
  have hd' : '.' ∉ '/' :: v := by
    intro hm
    rcases List.mem_cons.1 hm with e | e
    · exact absurd e (by decide)
    · exact hd e
  unfold normalize
  simp only [hk, Bool.false_eq_true, if_false, hy, LastIndex_append hs, List.drop_left,
    Index_eq_none hd', List.take_left]

/-- A last slash and a first dot after it: the namespace is the text before
that dot. -/
theorem normalize_slash_dot {name u v w : Str}
    (hk : (HasPrefix name "go:".toList || HasPrefix name "struct \x7b".toList) = false)
    (hy : TrimPrefix (TrimPrefix name "type:.eq.".toList) "type:.hash.".toList
      = u ++ '/' :: (v ++ '.' :: w))
    (hsv : '/' ∉ v) (hsw : '/' ∉ w) (hd : '.' ∉ v) :
    normalize name = some (u ++ '/' :: v) := by
  have hs : '/' ∉ v ++ '.' :: w := by
    intro hm
    rcases List.mem_append.1 hm with e | e
    · exact hsv e
    · rcases List.mem_cons.1 e with e' | e'
      · exact absurd e' (by decide)
      · exact hsw e'
  have hd' : '.' ∉ '/' :: v := by
    intro hm
    rcases List.mem_cons.1 hm with e | e
    · exact absurd e (by decide)
    · exact hd e
  have hi : Index ('/' :: (v ++ '.' :: w)) '.' = some ('/' :: v).length :=
    Index_append hd'
  have ht : List.take ('/' :: v).length ('/' :: (v ++ '.' :: w)) = '/' :: v :=
    List.take_left ('/' :: v) ('.' :: w)
  unfold normalize
  simp only [hk, Bool.false_eq_true, if_false, hy, LastIndex_append hs, List.drop_left, hi,
    List.take_left, ht]

/-- The namespace of a name is the text before the first dot that comes after
its last slash. -/
theorem normalize_first_dot {name a b : Str}
    (hk : (HasPrefix name "go:".toList || HasPrefix name "struct \x7b".toList) = false)
    (hy : TrimPrefix (TrimPrefix name "type:.eq.".toList) "type:.hash.".toList = a ++ '.' :: b)
    (hb : '/' ∉ b) (ha : ∀ u w, a = u ++ '.' :: w → '/' ∈ w) :
    normalize name = some a := by
  by_cases hsa : '/' ∈ a
  · obtain ⟨u, v, rfl, hv⟩ := split_last hsa
    have hd : '.' ∉ v := by
      intro hm
      obtain ⟨v1, v2, rfl, -⟩ := split_first hm
      have := ha (u ++ '/' :: v1) v2 (by simp)
      exact hv (List.mem_append_right _ (List.mem_cons_of_mem _ this))
    exact normalize_slash_dot hk (by rw [hy]; simp) hv hb hd
  · have hd : '.' ∉ a := by
      intro hm
      obtain ⟨u, w, rfl, -⟩ := split_first hm
      exact hsa (List.mem_append_right _ (List.mem_cons_of_mem _ (ha u w rfl)))
    refine normalize_dot hk hy ?_ hd
    intro hm
    rcases List.mem_append.1 hm with e | e
    · exact hsa e
    · rcases List.mem_cons.1 e with e' | e'
      · exact absurd e' (by decide)
      · exact hb e'

/-- A name with a dot after its last slash has a namespace, and the name is
that namespace, a dot, and a remainder. -/
theorem normalize_exists_of_dot {name a b : Str}
    (hk : (HasPrefix name "go:".toList || HasPrefix name "struct \x7b".toList) = false)
    (hy : TrimPrefix (TrimPrefix name "type:.eq.".toList) "type:.hash.".toList = a ++ '.' :: b)
    (hb : '/' ∉ b) :
    ∃ ns m, normalize name = some ns ∧
      TrimPrefix (TrimPrefix name "type:.eq.".toList) "type:.hash.".toList = ns ++ '.' :: m := by
  by_cases hsa : '/' ∈ a
  · obtain ⟨u, v, rfl, hv⟩ := split_last hsa
    have hdot : '.' ∈ v ++ '.' :: b :=
      List.mem_append_right _ (List.mem_cons_self _ _)
    obtain ⟨v1, v2, e, hv1⟩ := split_first hdot
    have hs : '/' ∉ v ++ '.' :: b := by
      intro hm
      rcases List.mem_append.1 hm with e' | e'
      · exact hv e'
      · rcases List.mem_cons.1 e' with e'' | e''
        · exact absurd e'' (by decide)
        · exact hb e''
    rw [e] at hs
    have hsv1 : '/' ∉ v1 := fun hm => hs (List.mem_append_left _ hm)
    have hsv2 : '/' ∉ v2 :=
      fun hm => hs (List.mem_append_right _ (List.mem_cons_of_mem _ hm))
    have hy' : TrimPrefix (TrimPrefix name "type:.eq.".toList) "type:.hash.".toList
        = u ++ '/' :: (v1 ++ '.' :: v2) := by
      rw [hy, ← e]; simp
    exact ⟨u ++ '/' :: v1, v2, normalize_slash_dot hk hy' hsv1 hsv2 hv1, by rw [hy']; simp⟩
  · have hs : '/' ∉ a ++ '.' :: b := by
      intro hm
      rcases List.mem_append.1 hm with e | e
      · exact hsa e
      · rcases List.mem_cons.1 e with e' | e'
        · exact absurd e' (by decide)
        · exact hb e'
    have hdot : '.' ∈ a ++ '.' :: b :=
      List.mem_append_right _ (List.mem_cons_self _ _)
    obtain ⟨u, w, e, hu⟩ := split_first hdot
    rw [e] at hs
    exact ⟨u, w, normalize_dot hk (by rw [hy, e]) hs hu, by rw [hy, e]⟩

/-! ## Lemmas on membership in the namespace set -/

theorem mem_processName {pkgs : List Str} {name x : Str} :
    x ∈ processName pkgs name ↔ x ∈ pkgs ∨ normalize name = some x := by
  unfold processName
  cases hn : normalize name with
  | none => simp
  | some ns =>
    simp only [mem_insertKey, Option.some.injEq]
    constructor
    · rintro (e | e)
      · exact Or.inr e.symm
      · exact Or.inl e
    · rintro (e | e)
      · exact Or.inr e
      · exact Or.inl e.symm

theorem mem_process (names : List Str) {pkgs : List Str} {x : Str} :
    x ∈ process pkgs names ↔ x ∈ pkgs ∨ ∃ n ∈ names, normalize n = some x := by
  induction names generalizing pkgs with
  | nil => simp [process]
  | cons n ns ih =>
    show x ∈ process (processName pkgs n) ns ↔ _
    rw [ih, mem_processName]
    simp only [List.mem_cons, exists_eq_or_imp]
    tauto

theorem mem_processTypes (paths : List Str) {pkgs : List Str} {x : Str} :
    x ∈ processTypes pkgs paths ↔ x ∈ pkgs ∨ x ∈ paths := by
  induction paths generalizing pkgs with
  | nil => simp [processTypes]
  | cons p ps ih =>
    show x ∈ processTypes (insertKey pkgs p) ps ↔ _
    rw [ih, mem_insertKey]
    simp only [List.mem_cons]
    tauto

theorem mem_packagesOf (gs fs ps : List Str) (x : Str) :
    x ∈ packagesOf gs fs ps ↔
      (x ∈ ps ∨ (∃ n ∈ gs, normalize n = some x) ∨ (∃ n ∈ fs, normalize n = some x)) := by
  unfold packagesOf
  rw [mem_sortStrings, mem_processTypes, mem_process, mem_process]
  simp only [List.not_mem_nil, false_or]
  exact or_comm

/-- Membership in the output of `filterNames`. -/
theorem mem_filterNames (pkg m : Str) (names : List Str) :
    m ∈ filterNames pkg names ↔ pkg ++ ".".toList ++ m ∈ names := by
  unfold filterNames
  simp only
  rw [mem_sortStrings, filterLoop_eq, List.nil_append, List.mem_map]
  constructor
  · rintro ⟨n, hn, rfl⟩
    rw [List.mem_filter] at hn
    obtain ⟨t, rfl⟩ := (HasPrefix_iff _ _).1 hn.2
    rw [TrimPrefix_append]
    exact hn.1
  · intro hm
    exact ⟨_, List.mem_filter.2 ⟨hm, HasPrefix_append _ _⟩, TrimPrefix_append _ _⟩

/-- What any `$import` with a target other than "_" has done, whether it
succeeds or fails: the root is seen through some content of `envToFill`, and
that content differs from the initial one only at identifiers `k` with
`pkgName.k` among the enumerated globals or functions. -/
theorem importDirective_view (h : Host) (a0 a1 : h.Value) (env env' : Environment h.Value)
    (s s' : h.State) (r : Except h.Err (List h.Value))
    (h0 : h.KindString a0 = true) (h1 : h.KindString a1 = true)
    (hd : h.ValueString a0 ≠ "_".toList)
    (hres : importDirective h [a0, a1] env s = (r, env', s')) :
    ∃ fill, env' = rootView h env (h.ValueString a0) (h.ValueString a1) fill ∧
      ∀ k, fill.lookup k ≠
          (if h.ValueString a0 = ".".toList then env else Environment.empty).lookup k →
        h.IsIdentifier k = true ∧
        ∃ gs s1, h.Globals s = (.ok gs, s1) ∧
          (h.ValueString a1 ++ ".".toList ++ k ∈ gs ∨
            ∃ fs s3,
              h.Functions
                (scanList h (h.ValueString a1) h.Global gs Environment.empty s1).2.2
                = (.ok fs, s3) ∧
              h.ValueString a1 ++ ".".toList ++ k ∈ fs) := by
  unfold importDirective at hres
  simp only [h0, h1, Bool.not_true, Bool.false_eq_true, if_false, hd] at hres
  cases hG : h.Globals s with
  | mk resG s1 =>
    rw [hG] at hres
    cases resG with
    | error err =>
      simp only [Prod.mk.injEq] at hres
      exact ⟨_, hres.2.1.symm, fun k hk => absurd rfl hk⟩
    | ok gs =>
      simp only at hres
      cases hSG : scanList h (h.ValueString a1) h.Global gs
          (if h.ValueString a0 = ".".toList then env else Environment.empty) s1 with
      | mk resSG rest =>
        obtain ⟨fillG, s2⟩ := rest
        rw [hSG] at hres
        have hfrG := scanList_frame h _ _ _ _ _ _ _ _ hSG
        have hs2 : (scanList h (h.ValueString a1) h.Global gs Environment.empty s1).2.2
            = s2 := by
          have := scanList_append h (h.ValueString a1) h.Global gs
            (if h.ValueString a0 = ".".toList then env else Environment.empty) s1
          rw [hSG] at this
          simp only [Prod.mk.injEq] at this
          exact this.2.2.symm
        have hgl : ∀ k, fillG.lookup k ≠
            (if h.ValueString a0 = ".".toList then env else Environment.empty).lookup k →
            h.IsIdentifier k = true ∧ h.ValueString a1 ++ ".".toList ++ k ∈ gs := by
          intro k hk
          by_contra hc
          exact hk (hfrG k hc)
        cases resSG with
        | error err =>
          simp only [Prod.mk.injEq] at hres
          refine ⟨fillG, hres.2.1.symm, fun k hk => ?_⟩
          exact ⟨(hgl k hk).1, gs, s1, rfl, Or.inl (hgl k hk).2⟩
        | ok u =>
          simp only at hres
          cases hF : h.Functions s2 with
          | mk resF s3 =>
            rw [hF] at hres
            cases resF with
            | error err =>
              simp only [Prod.mk.injEq] at hres
              refine ⟨fillG, hres.2.1.symm, fun k hk => ?_⟩
              exact ⟨(hgl k hk).1, gs, s1, rfl, Or.inl (hgl k hk).2⟩
            | ok fs =>
              simp only at hres
              obtain ⟨fillF, hSF, -⟩ :=
                scanList_functionLoader h (h.ValueString a1) fs fillG s3
              have hfrF := scanList_frame h _ _ _ _ _ _ _ _ hSF
              rw [hSF] at hres
              simp only [Prod.mk.injEq] at hres
              refine ⟨fillF, hres.2.1.symm, fun k hk => ?_⟩
              by_cases hkf : h.IsIdentifier k = true ∧ h.ValueString a1 ++ ".".toList ++ k ∈ fs
              · exact ⟨hkf.1, gs, s1, rfl, Or.inr ⟨fs, s3, by rw [hs2]; exact hF, hkf.2⟩⟩
              · have hk' : fillG.lookup k ≠
                    (if h.ValueString a0 = ".".toList then env
                      else Environment.empty).lookup k := by
                  rw [← hfrF k hkf]; exact hk
                exact ⟨(hgl k hk').1, gs, s1, rfl, Or.inl (hgl k hk').2⟩

/-! ## C11: a failing invocation -/

/-- C11: for every namespace, member name and argument list, if the service
fails to invoke `namespace ++ "." ++ member` with the boxed arguments, `call`
returns that same error and no result values; the root Environment is as it
was. -/
theorem call_service_failure (h : Host) (a0 a1 : h.Value) (xs : List h.Value)
    (env : Environment h.Value) (s s1 : h.State) (err : h.Err)
    (h0 : h.KindString a0 = true) (h1 : h.KindString a1 = true)
    (hC : h.Call (h.ValueString a0 ++ ".".toList ++ h.ValueString a1)
      (xs.map h.Interface) s = (.error err, s1)) :
    call h (a0 :: a1 :: xs) env s = (.error err, env, s1) := by
  unfold call
  simp only [h0, h1, Bool.not_true, Bool.false_eq_true, if_false, hC]

/-- C11 at the small host: "os.Exit" is not known to its service. -/
theorem call_service_failure_witness :
    Demo.host.Call "os.Exit".toList [Demo.Val.int 1] (0 : Nat)
      = (.error "no such function", (0 : Nat)) ∧
    call Demo.host [.str "os".toList, .str "Exit".toList, .int 1] Environment.empty (0 : Nat)
      = (.error "no such function", Environment.empty, (0 : Nat)) :=
  ⟨rfl,
    call_service_failure Demo.host (.str "os".toList) (.str "Exit".toList) [.int 1]
      Environment.empty (0 : Nat) (0 : Nat) "no such function" rfl rfl rfl⟩

/-! ## C12: argument-shape errors -/

/-- C12: whenever the argument list of `global` (exactly two strings), `call`
(at least two arguments, the first two strings), `newAt` (exactly two strings
and one integer) or `$import` (exactly two strings) does not have that shape,
the operation returns an error built by `fmt.Errorf` and no results, the root
Environment and the state of the service are as they were, and the outcome is
the same whatever symbol-table service is in place. -/
theorem argument_shape_errors (h : Host) (args : List h.Value) (env : Environment h.Value)
    (s : h.State) :
    ((¬ ∃ a0 a1, args = [a0, a1] ∧ h.KindString a0 = true ∧ h.KindString a1 = true) →
      ∃ msg, global h args env s = (.error (h.Errorf msg), env, s) ∧
        ∀ g f t gl c tt, global (withService h g f t gl c tt) args env s
          = (.error (h.Errorf msg), env, s)) ∧
    ((¬ ∃ a0 a1 rest, args = a0 :: a1 :: rest ∧
        h.KindString a0 = true ∧ h.KindString a1 = true) →
      ∃ msg, call h args env s = (.error (h.Errorf msg), env, s) ∧
        ∀ g f t gl c tt, call (withService h g f t gl c tt) args env s
          = (.error (h.Errorf msg), env, s)) ∧
    ((¬ ∃ a0 a1 a2, args = [a0, a1, a2] ∧
        h.KindString a0 = true ∧ h.KindString a1 = true ∧ h.CanInt a2 = true) →
      ∃ msg, newAt h args env s = (.error (h.Errorf msg), env, s) ∧
        ∀ g f t gl c tt, newAt (withService h g f t gl c tt) args env s
          = (.error (h.Errorf msg), env, s)) ∧
    ((¬ ∃ a0 a1, args = [a0, a1] ∧ h.KindString a0 = true ∧ h.KindString a1 = true) →
      ∃ msg, importDirective h args env s = (.error (h.Errorf msg), env, s) ∧
        ∀ g f t gl c tt, importDirective (withService h g f t gl c tt) args env s
          = (.error (h.Errorf msg), env, s)) := by
  refine ⟨?_, ?_, ?_, ?_⟩
  · intro hshape
    by_cases hlen : args.length = 2
    · have hany : args.any (fun arg => !h.KindString arg) = true := by
        match args, hlen, hshape with
        | [a0, a1], _, hshape =>
          by_contra hc
          simp only [List.any_cons, List.any_nil, Bool.or_false, Bool.or_eq_true,
            Bool.not_eq_true', not_or, Bool.not_eq_false] at hc
          exact hshape ⟨a0, a1, rfl, hc.1, hc.2⟩
      refine ⟨"global expected the arguments to be strings", ?_, fun g f t gl c tt => ?_⟩
      · simp only [global, hlen, ne_eq, not_true_eq_false, if_false, hany, if_true]
      · simp only [global, hlen, ne_eq, not_true_eq_false, if_false, hany, if_true]
    · refine ⟨"global expected 2 arguments", ?_, fun g f t gl c tt => ?_⟩
      · simp only [global, hlen, ne_eq, not_false_eq_true, if_true]
      · simp only [global, hlen, ne_eq, not_false_eq_true, if_true]
  · intro hshape
    match args, hshape with
    | [], _ => exact ⟨"call expected at least 2 arguments", rfl, fun _ _ _ _ _ _ => rfl⟩
    | [_], _ => exact ⟨"call expected at least 2 arguments", rfl, fun _ _ _ _ _ _ => rfl⟩
    | a0 :: a1 :: rest, hshape =>
      by_cases h0 : h.KindString a0 = true
      · have h1 : h.KindString a1 = false := by
          by_contra hc
          exact hshape ⟨a0, a1, rest, rfl, h0, by simpa using hc⟩
        refine ⟨"call expected the second argument to be a string", ?_,
          fun g f t gl c tt => ?_⟩
        · simp only [call, h0, h1, Bool.not_true, Bool.not_false, Bool.false_eq_true,
            if_false, if_true]
        · simp only [call, h0, h1, Bool.not_true, Bool.not_false, Bool.false_eq_true,
            if_false, if_true]
      · have h0' : h.KindString a0 = false := by simpa using h0
        refine ⟨"call expected the first argument to be a string", ?_,
          fun g f t gl c tt => ?_⟩
        · simp only [call, h0', Bool.not_false, if_true]
        · simp only [call, h0', Bool.not_false, if_true]
  · intro hshape
    match args, hshape with
    | [], _ => exact ⟨"newAt expected 3 arguments", rfl, fun _ _ _ _ _ _ => rfl⟩
    | [_], _ => exact ⟨"newAt expected 3 arguments", rfl, fun _ _ _ _ _ _ => rfl⟩
    | [_, _], _ => exact ⟨"newAt expected 3 arguments", rfl, fun _ _ _ _ _ _ => rfl⟩
    | _ :: _ :: _ :: _ :: _, _ =>
      exact ⟨"newAt expected 3 arguments", rfl, fun _ _ _ _ _ _ => rfl⟩
    | [a0, a1, a2], hshape =>
      by_cases h0 : h.KindString a0 = true
      · by_cases h1 : h.KindString a1 = true
        · have h2 : h.CanInt a2 = false := by
            by_contra hc
            exact hshape ⟨a0, a1, a2, rfl, h0, h1, by simpa using hc⟩
          refine ⟨"newAt expected the third argument to be an integer", ?_,
            fun g f t gl c tt => ?_⟩
          · simp only [newAt, h0, h1, h2, Bool.not_true, Bool.not_false, Bool.false_eq_true,
              if_false, if_true]
          · simp only [newAt, h0, h1, h2, Bool.not_true, Bool.not_false, Bool.false_eq_true,
              if_false, if_true]
        · have h1' : h.KindString a1 = false := by simpa using h1
          refine ⟨"newAt expected the second argument to be a string", ?_,
            fun g f t gl c tt => ?_⟩
          · simp only [newAt, h0, h1', Bool.not_true, Bool.not_false, Bool.false_eq_true,
              if_false, if_true]
          · simp only [newAt, h0, h1', Bool.not_true, Bool.not_false, Bool.false_eq_true,
              if_false, if_true]
      · have h0' : h.KindString a0 = false := by simpa using h0
        refine ⟨"newAt expected the first argument to be a string", ?_,
          fun g f t gl c tt => ?_⟩
        · simp only [newAt, h0', Bool.not_false, if_true]
        · simp only [newAt, h0', Bool.not_false, if_true]
  · intro hshape
    match args, hshape with
    | [], _ => exact ⟨"import expected 2 arguments", rfl, fun _ _ _ _ _ _ => rfl⟩
    | [_], _ => exact ⟨"import expected 2 arguments", rfl, fun _ _ _ _ _ _ => rfl⟩
    | _ :: _ :: _ :: _, _ =>
      exact ⟨"import expected 2 arguments", rfl, fun _ _ _ _ _ _ => rfl⟩
    | [a0, a1], hshape =>
      by_cases h0 : h.KindString a0 = true
      · have h1 : h.KindString a1 = false := by
          by_contra hc
          exact hshape ⟨a0, a1, rfl, h0, by simpa using hc⟩
        refine ⟨"import expected a package name", ?_, fun g f t gl c tt => ?_⟩
        · simp only [importDirective, h0, h1, Bool.not_true, Bool.not_false,
            Bool.false_eq_true, if_false, if_true]
        · simp only [importDirective, h0, h1, Bool.not_true, Bool.not_false,
            Bool.false_eq_true, if_false, if_true]
      · have h0' : h.KindString a0 = false := by simpa using h0
        refine ⟨"import expected a target name argument", ?_, fun g f t gl c tt => ?_⟩
        · simp only [importDirective, h0', Bool.not_false, if_true]
        · simp only [importDirective, h0', Bool.not_false, if_true]

/-- C12 at the small host: `global` with one argument, `call` with an integer
first, `newAt` with a string for the address and `$import` with three
arguments. -/
theorem argument_shape_errors_witness :
    (global Demo.host [.str "fmt".toList] (Env Demo.host) (0 : Nat)).1
      = .error "global expected 2 arguments" ∧
    (∃ msg, global Demo.host [.str "fmt".toList] (Env Demo.host) (0 : Nat)
        = (.error (Demo.host.Errorf msg), Env Demo.host, (0 : Nat)) ∧
      ∀ g f t gl c tt, global (withService Demo.host g f t gl c tt) [.str "fmt".toList]
        (Env Demo.host) (0 : Nat) = (.error (Demo.host.Errorf msg), Env Demo.host, (0 : Nat))) ∧
    (∃ msg, call Demo.host [.int 1, .str "Println".toList] (Env Demo.host) (0 : Nat)
        = (.error (Demo.host.Errorf msg), Env Demo.host, (0 : Nat)) ∧
      ∀ g f t gl c tt, call (withService Demo.host g f t gl c tt)
        [.int 1, .str "Println".toList]
        (Env Demo.host) (0 : Nat) = (.error (Demo.host.Errorf msg), Env Demo.host, (0 : Nat))) ∧
    (∃ msg, newAt Demo.host [.str "net/http".toList, .str "Client".toList, .str "x".toList]
        (Env Demo.host) (0 : Nat)
        = (.error (Demo.host.Errorf msg), Env Demo.host, (0 : Nat)) ∧
      ∀ g f t gl c tt, newAt (withService Demo.host g f t gl c tt)
        [.str "net/http".toList, .str "Client".toList, .str "x".toList]
        (Env Demo.host) (0 : Nat) = (.error (Demo.host.Errorf msg), Env Demo.host, (0 : Nat))) ∧
    (∃ msg, importDirective Demo.host [.str "f".toList, .str "fmt".toList, .int 0]
        (Env Demo.host) (0 : Nat)
        = (.error (Demo.host.Errorf msg), Env Demo.host, (0 : Nat)) ∧
      ∀ g f t gl c tt, importDirective (withService Demo.host g f t gl c tt)
        [.str "f".toList, .str "fmt".toList, .int 0]
        (Env Demo.host) (0 : Nat) = (.error (Demo.host.Errorf msg), Env Demo.host, (0 : Nat))) :=
  ⟨rfl,
    (argument_shape_errors Demo.host [.str "fmt".toList] (Env Demo.host) (0 : Nat)).1
      (by rintro ⟨a0, a1, e, -⟩; cases e),
    (argument_shape_errors Demo.host [.int 1, .str "Println".toList] (Env Demo.host)
      (0 : Nat)).2.1
      (by rintro ⟨a0, a1, rest, e, h0, -⟩; cases e; cases h0),
    (argument_shape_errors Demo.host
      [.str "net/http".toList, .str "Client".toList, .str "x".toList] (Env Demo.host)
      (0 : Nat)).2.2.1
      (by rintro ⟨a0, a1, a2, e, -, -, h2⟩; cases e; cases h2),
    (argument_shape_errors Demo.host [.str "f".toList, .str "fmt".toList, .int 0]
      (Env Demo.host) (0 : Nat)).2.2.2
      (by rintro ⟨a0, a1, e, -⟩; cases e)⟩

/-! ## C13: a failing enumeration in `packages` -/

/-- C13: if the enumeration of globals fails, or it succeeds and the
enumeration of functions fails, or both succeed and the enumeration of
declared types fails, `packages` fails (panics) with that same service error
and returns no list. -/
theorem packages_enumeration_failure (h : Host) (s : h.State) (err : h.Err) :
    (∀ s1, h.Globals s = (.error err, s1) → packages h s = (.error err, s1)) ∧
    (∀ gs s1 s2, h.Globals s = (.ok gs, s1) → h.Functions s1 = (.error err, s2) →
      packages h s = (.error err, s2)) ∧
    (∀ gs fs s1 s2 s3, h.Globals s = (.ok gs, s1) → h.Functions s1 = (.ok fs, s2) →
      h.Types s2 = (.error err, s3) → packages h s = (.error err, s3)) := by
  refine ⟨?_, ?_, ?_⟩
  · intro s1 hG
    simp only [packages, hG]
  · intro gs s1 s2 hG hF
    simp only [packages, hG, hF]
  · intro gs fs s1 s2 s3 hG hF hT
    simp only [packages, hG, hF, hT]

/-- C13 at the small host with each enumeration broken in turn. -/
theorem packages_enumeration_failure_witness :
    packages Demo.broken (0 : Nat) = (.error "no symbol table", (0 : Nat)) ∧
    packages Demo.brokenFunctions (0 : Nat) = (.error "no function table", (0 : Nat)) ∧
    packages Demo.brokenTypes (0 : Nat) = (.error "no type table", (0 : Nat)) :=
  ⟨(packages_enumeration_failure Demo.broken (0 : Nat) "no symbol table").1 (0 : Nat) rfl,
    (packages_enumeration_failure Demo.brokenFunctions (0 : Nat) "no function table").2.1
      Demo.globalNames (0 : Nat) (0 : Nat) rfl rfl,
    (packages_enumeration_failure Demo.brokenTypes (0 : Nat) "no type table").2.2
      Demo.globalNames Demo.functionNames (0 : Nat) (0 : Nat) (0 : Nat) rfl rfl rfl⟩

/-! ## C14: membership in the output of `packages` -/

/-- C14: when the three enumerations succeed, a string occurs in the output
of `packages` if and only if it is the `PkgPath` of some declared type, or the
namespace that the Normalizer derives from some global name or from some
function name that it does not discard. -/
theorem packages_membership (h : Host) (s s1 s2 s3 : h.State)
    (gs fs : List Str) (ts : List h.RType)
    (hG : h.Globals s = (.ok gs, s1)) (hF : h.Functions s1 = (.ok fs, s2))
    (hT : h.Types s2 = (.ok ts, s3)) :
    ∃ out, packages h s = (.ok out, s3) ∧
      ∀ x, x ∈ out ↔
        ((∃ t ∈ ts, h.PkgPath t = x) ∨ (∃ n ∈ gs, normalize n = some x) ∨
          (∃ n ∈ fs, normalize n = some x)) := by
  refine ⟨_, packages_eq_packagesOf h hG hF hT, fun x => ?_⟩
  rw [mem_packagesOf, List.mem_map]

/-- C14 at the small host: "net/http" is listed for the declared type
"Client" and "os" for the global "os.Args". -/
theorem packages_membership_witness :
    normalize "os.Args".toList = some "os".toList ∧
    ∃ out, packages Demo.host (0 : Nat) = (.ok out, (0 : Nat)) ∧
      ∀ x, x ∈ out ↔
        ((∃ t ∈ [("net/http".toList, "Client".toList)], Demo.host.PkgPath t = x) ∨
          (∃ n ∈ Demo.globalNames, normalize n = some x) ∨
          (∃ n ∈ Demo.functionNames, normalize n = some x)) :=
  ⟨by decide,
    packages_membership Demo.host (0 : Nat) (0 : Nat) (0 : Nat) (0 : Nat)
      Demo.globalNames Demo.functionNames [("net/http".toList, "Client".toList)] rfl rfl rfl⟩

/-! ## C15: the normalizer, dotted case -/

/-- C15: for every name that is not discarded, let `y` be the name left after
the prefixes "type:.eq." and "type:.hash." are trimmed.  If `y` is `a`, a dot
and `b`, where `b` holds no "/" (the dot comes after the last "/") and every
dot inside `a` is followed by a "/" inside `a` (no earlier dot comes after the
last "/"), then the derived namespace is `a`: the text of `y` before the first
"." after its last "/". -/
theorem normalize_dotted_case (name a b : Str)
    (hk : (HasPrefix name "go:".toList || HasPrefix name "struct \x7b".toList) = false)
    (hy : TrimPrefix (TrimPrefix name "type:.eq.".toList) "type:.hash.".toList
      = a ++ ".".toList ++ b)
    (hb : '/' ∉ b) (ha : ∀ u w, a = u ++ ".".toList ++ w → '/' ∈ w) :
    normalize name = some a :=
  normalize_first_dot hk (by rw [hy]; simp) hb
    (fun u w e => ha u w (by rw [e]; simp))

/-- C15 at "github.com/foo/bar.Baz.qux" and at "type:.eq.fmt.pp". -/
theorem normalize_dotted_case_witness :
    normalize "github.com/foo/bar.Baz.qux".toList = some "github.com/foo/bar".toList ∧
    normalize "type:.eq.fmt.pp".toList = some "fmt".toList :=
  ⟨normalize_dotted_case "github.com/foo/bar.Baz.qux".toList "github.com/foo/bar".toList
      "Baz.qux".toList (by decide) (by decide) (by decide)
      (by
        intro u w e
        have hsuf : ('.' :: w) ∈ ("github.com/foo/bar".toList).tails := by
          rw [List.mem_tails, e]
          exact ⟨u, by simp⟩
        have key : ∀ t ∈ ("github.com/foo/bar".toList).tails,
            t.head? = some '.' → '/' ∈ t.tail := by decide
        exact key _ hsuf rfl),
    normalize_dotted_case "type:.eq.fmt.pp".toList "fmt".toList "pp".toList
      (by decide) (by decide) (by decide)
      (by
        intro u w e
        have hmem : '.' ∈ "fmt".toList := by
          rw [e]; simp
        exact absurd hmem (by decide))⟩

/-! ## C16: the normalizer, dot-less case -/

/-- C16, counterexample: "a/b" is not discarded and its part after the last
"/" holds no dot; everything before and including the last "/" is "a/", but
the derived namespace is "a".  And for "type:.eq.a/b" the namespace is "a",
taken from the name left after the decoration prefix is trimmed. -/
theorem normalize_dotless_excludes_slash :
    normalize "a/b".toList = some "a".toList ∧
    normalize "a/b".toList ≠ some "a/".toList ∧
    normalize "type:.eq.a/b".toList = some "a".toList ∧
    normalize "type:.eq.a/b".toList ≠ some "type:.eq.a/".toList := by
  decide

/-- C16, amended: for every name that is not discarded, let `y` be the name
left after the prefixes "type:.eq." and "type:.hash." are trimmed.  If `y` is
`u`, a "/" and `v`, where `v` holds neither "/" nor ".", the derived namespace
is `u`: everything before the last "/" of `y`, without that "/".  If `y` holds
neither "/" nor ".", the derived namespace is empty. -/
theorem normalize_dotless_case (name : Str)
    (hk : (HasPrefix name "go:".toList || HasPrefix name "struct \x7b".toList) = false) :
    (∀ u v, TrimPrefix (TrimPrefix name "type:.eq.".toList) "type:.hash.".toList
        = u ++ "/".toList ++ v →
      '/' ∉ v → '.' ∉ v → normalize name = some u) ∧
    ('/' ∉ TrimPrefix (TrimPrefix name "type:.eq.".toList) "type:.hash.".toList →
      '.' ∉ TrimPrefix (TrimPrefix name "type:.eq.".toList) "type:.hash.".toList →
      normalize name = some []) :=
  ⟨fun _ _ hy hs hd => normalize_slash hk (by rw [hy]; simp) hs hd,
    fun hs hd => normalize_plain hk hs hd⟩

/-- C16, amended, at "a/b", whose namespace is "a", and at "memmove", whose
namespace is empty. -/
theorem normalize_dotless_case_witness :
    normalize "a/b".toList = some "a".toList ∧ normalize "memmove".toList = some [] :=
  ⟨(normalize_dotless_case "a/b".toList (by decide)).1 "a".toList "b".toList
      (by decide) (by decide) (by decide),
    (normalize_dotless_case "memmove".toList (by decide)).2 (by decide) (by decide)⟩

/-- A name without a decoration prefix is left as it is by the trimming. -/
theorem TrimPrefix_eq_self {s pre : Str} (hp : HasPrefix s pre = false) :
    TrimPrefix s pre = s := by
  simp [TrimPrefix, hp]

/-- The namespace and the member of a name that has no marker, no decoration
prefix and a dot after its last slash. -/
theorem normalize_member {n a b : Str}
    (hgo : HasPrefix n "go:".toList = false)
    (hst : HasPrefix n "struct \x7b".toList = false)
    (heq : HasPrefix n "type:.eq.".toList = false)
    (hha : HasPrefix n "type:.hash.".toList = false)
    (hn : n = a ++ ".".toList ++ b) (hb : '/' ∉ b) :
    ∃ ns m, normalize n = some ns ∧ n = ns ++ ".".toList ++ m := by
  have hk : (HasPrefix n "go:".toList || HasPrefix n "struct \x7b".toList) = false := by
    rw [hgo, hst]; rfl
  have hy : TrimPrefix (TrimPrefix n "type:.eq.".toList) "type:.hash.".toList = n := by
    rw [TrimPrefix_eq_self heq, TrimPrefix_eq_self hha]
  obtain ⟨ns, m, hnorm, e⟩ :=
    @normalize_exists_of_dot n a b hk (by rw [hy, hn]; simp) hb
  exact ⟨ns, m, hnorm, by rw [← hy, e]; simp⟩

/-! ## C17: the namespace index and the member listings agree -/

/-- C17: when the three enumerations succeed, every enumerated global `n`
that does not begin with "go:", "struct {", "type:.eq." or "type:.hash." and
has a "." after its last "/" is `ns ++ "." ++ m` for the namespace `ns` that
the Normalizer derives from it; `ns` is in the output of `packages`, and
`globals(ns)`, called while the service enumerates the same globals, lists
`m`.  The same holds for every enumerated function and `functions(ns)`. -/
theorem packages_members_agree (h : Host) (s s1 s2 s3 : h.State)
    (gs fs : List Str) (ts : List h.RType)
    (hG : h.Globals s = (.ok gs, s1)) (hF : h.Functions s1 = (.ok fs, s2))
    (hT : h.Types s2 = (.ok ts, s3)) :
    (∀ n ∈ gs, HasPrefix n "go:".toList = false → HasPrefix n "struct \x7b".toList = false →
      HasPrefix n "type:.eq.".toList = false → HasPrefix n "type:.hash.".toList = false →
      (∃ a b, n = a ++ ".".toList ++ b ∧ '/' ∉ b) →
      ∀ t t1, h.Globals t = (.ok gs, t1) →
      ∃ ns m out members, normalize n = some ns ∧ n = ns ++ ".".toList ++ m ∧
        packages h s = (.ok out, s3) ∧ ns ∈ out ∧
        globals h ns t = (.ok members, t1) ∧ m ∈ members) ∧
    (∀ n ∈ fs, HasPrefix n "go:".toList = false → HasPrefix n "struct \x7b".toList = false →
      HasPrefix n "type:.eq.".toList = false → HasPrefix n "type:.hash.".toList = false →
      (∃ a b, n = a ++ ".".toList ++ b ∧ '/' ∉ b) →
      ∀ t t1, h.Functions t = (.ok fs, t1) →
      ∃ ns m out members, normalize n = some ns ∧ n = ns ++ ".".toList ++ m ∧
        packages h s = (.ok out, s3) ∧ ns ∈ out ∧
        functions h ns t = (.ok members, t1) ∧ m ∈ members) := by
  constructor
  · intro n hn hgo hst heq hha hdot t t1 hGt
    obtain ⟨a, b, hab, hb⟩ := hdot
    obtain ⟨ns, m, hnorm, e⟩ := normalize_member hgo hst heq hha hab hb
    refine ⟨ns, m, _, filterNames ns gs, hnorm, e, packages_eq_packagesOf h hG hF hT,
      ?_, ?_, ?_⟩
    · exact (mem_packagesOf _ _ _ _).2 (Or.inr (Or.inl ⟨n, hn, hnorm⟩))
    · simp only [globals, hGt]
    · rw [mem_filterNames, ← e]; exact hn
  · intro n hn hgo hst heq hha hdot t t1 hFt
    obtain ⟨a, b, hab, hb⟩ := hdot
    obtain ⟨ns, m, hnorm, e⟩ := normalize_member hgo hst heq hha hab hb
    refine ⟨ns, m, _, filterNames ns fs, hnorm, e, packages_eq_packagesOf h hG hF hT,
      ?_, ?_, ?_⟩
    · exact (mem_packagesOf _ _ _ _).2 (Or.inr (Or.inr ⟨n, hn, hnorm⟩))
    · simp only [functions, hFt]
    · rw [mem_filterNames, ← e]; exact hn

/-- C17 at the small host: the global "fmt.Version" and the function
"fmt.Println". -/
theorem packages_members_agree_witness :
    (globals Demo.host "fmt".toList (0 : Nat)).1 = .ok ["Version".toList, "x-y".toList] ∧
    (functions Demo.host "fmt".toList (0 : Nat)).1 = .ok ["Println".toList] ∧
    (∃ ns m out members, normalize "fmt.Version".toList = some ns ∧
      "fmt.Version".toList = ns ++ ".".toList ++ m ∧
      packages Demo.host (0 : Nat) = (.ok out, (0 : Nat)) ∧ ns ∈ out ∧
      globals Demo.host ns (0 : Nat) = (.ok members, (0 : Nat)) ∧ m ∈ members) ∧
    (∃ ns m out members, normalize "fmt.Println".toList = some ns ∧
      "fmt.Println".toList = ns ++ ".".toList ++ m ∧
      packages Demo.host (0 : Nat) = (.ok out, (0 : Nat)) ∧ ns ∈ out ∧
      functions Demo.host ns (0 : Nat) = (.ok members, (0 : Nat)) ∧ m ∈ members) :=
  ⟨rfl, rfl,
    (packages_members_agree Demo.host (0 : Nat) (0 : Nat) (0 : Nat) (0 : Nat)
      Demo.globalNames Demo.functionNames [("net/http".toList, "Client".toList)]
      rfl rfl rfl).1 "fmt.Version".toList (by decide) (by decide) (by decide) (by decide)
      (by decide) ⟨"fmt".toList, "Version".toList, by decide, by decide⟩
      (0 : Nat) (0 : Nat) rfl,
    (packages_members_agree Demo.host (0 : Nat) (0 : Nat) (0 : Nat) (0 : Nat)
      Demo.globalNames Demo.functionNames [("net/http".toList, "Client".toList)]
      rfl rfl rfl).2 "fmt.Println".toList (by decide) (by decide) (by decide) (by decide)
      (by decide) ⟨"fmt".toList, "Println".toList, by decide, by decide⟩
      (0 : Nat) (0 : Nat) rfl⟩

/-! ## C18: the frame of an import -/

/-- C18: a `$import` call with two string arguments and a target other than
"_", whether it succeeds or fails, changes the root Environment only where it
has to.  With a named target (or the default name for target "") every root
binding other than the one under the target name is as before.  With the
merge target "." a root binding can differ from before only if its name is a
valid identifier `k` such that `N ++ "." ++ k` is among the globals or the
functions that the service enumerated during the call. -/
theorem import_frame (h : Host) (a0 a1 : h.Value) (env env' : Environment h.Value)
    (s s' : h.State) (r : Except h.Err (List h.Value))
    (h0 : h.KindString a0 = true) (h1 : h.KindString a1 = true)
    (hd : h.ValueString a0 ≠ "_".toList)
    (hres : importDirective h [a0, a1] env s = (r, env', s')) :
    (h.ValueString a0 ≠ ".".toList →
      ∀ k, k ≠ importTarget h (h.ValueString a0) (h.ValueString a1) →
        env'.lookup k = env.lookup k) ∧
    (h.ValueString a0 = ".".toList →
      ∀ k, env'.lookup k ≠ env.lookup k →
        h.IsIdentifier k = true ∧
        ∃ gs s1, h.Globals s = (.ok gs, s1) ∧
          (h.ValueString a1 ++ ".".toList ++ k ∈ gs ∨
            ∃ fs s3,
              h.Functions
                (scanList h (h.ValueString a1) h.Global gs Environment.empty s1).2.2
                = (.ok fs, s3) ∧
              h.ValueString a1 ++ ".".toList ++ k ∈ fs)) := by
  obtain ⟨fill, he, hfill⟩ := importDirective_view h a0 a1 env env' s s' r h0 h1 hd hres
  constructor
  · intro hm k hk
    rw [he, rootView, if_neg hm, Environment.lookup_store, if_neg (Ne.symm hk)]
  · intro hm k hk
    rw [he, rootView, if_pos hm] at hk
    have := hfill k (by rw [if_pos hm]; exact hk)
    exact this

/-- C18 at the small host: a named import of "fmt" under "f" leaves "call"
bound as before, and so does a merge import, "call" not being a member of
"fmt". -/
theorem import_frame_witness :
    ((Demo.host.ValueString (.str "f".toList) ≠ ".".toList →
      ∀ k, k ≠ importTarget Demo.host (Demo.host.ValueString (.str "f".toList))
          (Demo.host.ValueString (.str "fmt".toList)) →
        (importDirective Demo.host [.str "f".toList, .str "fmt".toList] (Env Demo.host)
          (0 : Nat)).2.1.lookup k = (Env Demo.host).lookup k) ∧
    (Demo.host.ValueString (.str "f".toList) = ".".toList →
      ∀ k, (importDirective Demo.host [.str "f".toList, .str "fmt".toList] (Env Demo.host)
          (0 : Nat)).2.1.lookup k ≠ (Env Demo.host).lookup k →
        Demo.host.IsIdentifier k = true ∧
        ∃ gs s1, Demo.host.Globals (0 : Nat) = (.ok gs, s1) ∧
          (Demo.host.ValueString (.str "fmt".toList) ++ ".".toList ++ k ∈ gs ∨
            ∃ fs s3,
              Demo.host.Functions
                (scanList Demo.host (Demo.host.ValueString (.str "fmt".toList))
                  Demo.host.Global gs Environment.empty s1).2.2
                = (.ok fs, s3) ∧
              Demo.host.ValueString (.str "fmt".toList) ++ ".".toList ++ k ∈ fs))) ∧
    (importDirective Demo.host [.str ".".toList, .str "fmt".toList] (Env Demo.host)
      (0 : Nat)).2.1.lookup "call".toList = (Env Demo.host).lookup "call".toList :=
  ⟨import_frame Demo.host (.str "f".toList) (.str "fmt".toList) (Env Demo.host) _
      (0 : Nat) (0 : Nat) (.ok []) rfl rfl (by decide) rfl,
    rfl⟩

end Tools
